import Mathlib

/-!
Verification development for the vnmark-view transition and scene-reconciliation
engine.  The definitions below are a shallow embedding of the TypeScript sources:

* `Transition` and its operations embed `src/transition/Transition.ts`
  (`src/unnamed/part_002`).  JavaScript numbers are modelled as rationals; the
  `NaN` initial value of `lastUpdateTime` is modelled as `Option.none`.  Callback
  sets are modelled as an emitted event list (one event per notification of a
  callback set), and thrown errors as `Except.error`.
* `PropertyValue` and the resolver namespaces embed
  `src/engine/PropertyValue.ts` (`src/unnamed/part_010`); the resolved-property
  computations embed `src/view/ElementResolvedProperties.ts`
  (`src/unnamed/part_006`).
* The element transition machinery (`ElemState`, `elemRun`,
  `transitionPropertyValue`, `propertyStep`, `elementTransitionCommit`) embeds
  `BaseElement` of `src/view/Element.ts` together with the frame-callback
  registry of `Clock` (`src/view/Clock.ts`).  Object identities are modelled as
  natural numbers; the synchronous JavaScript call stack of nested callback
  invocations is modelled as an explicit task stack driven by fuel.
* `layoutTransition` embeds `Layout.transition` of `src/view/Layout.ts`.
* `ElementPropertyMatcher.getPropertyMatcher` embeds `src/engine/Maps.ts`
  (`ElementPropertyMatcher`), with glob matchers abstracted as boolean
  predicates on strings.
* `engineUpdateView` embeds the post-update cleanup of `Engine.updateView`
  (`src/engine/Engine.ts`).
-/

namespace Vnmark

/-! ## Transition (src/transition/Transition.ts) -/

/-- Converter between a value and a number; `src/transition/Transition.ts`
interface `Converter`, with both the value type and numbers modelled as `ℚ`. -/
structure Converter where
  convertToNumber : ℚ → ℚ
  convertFromNumber : ℚ → ℚ

/-- `src/transition/Converters.ts` `IdentityConverter`. -/
def IdentityConverter : Converter :=
  { convertToNumber := fun it => it, convertFromNumber := fun it => it }

/-- `Easing` from `src/transition/Transition.ts`: a fraction-remapping. -/
def Easing : Type := ℚ → ℚ

/-- `src/transition/Easings.ts` `LinearEasing`. -/
def LinearEasing : Easing := fun it => it

/-- One notification of one of the five callback sets of `Transition`, carrying
`currentValue` at notification time. -/
inductive TransitionEvent
  | started (v : ℚ)
  | paused (v : ℚ)
  | resumed (v : ℚ)
  | updated (v : ℚ)
  | ended (v : ℚ)
deriving DecidableEq, Repr

/-- State of a `Transition<ValueType>` from `src/transition/Transition.ts`,
with `ValueType = number` modelled as `ℚ`.  `lastUpdateTime = Option.none`
models the initial `Number.NaN`. -/
structure Transition where
  startValue : ℚ
  endValue : ℚ
  duration : ℚ
  converter : Converter
  easing : Easing
  delay : ℚ
  currentValue : ℚ
  isStarted : Bool
  isPaused : Bool
  isEnded : Bool
  lastUpdateTime : Option ℚ
  runningTime : ℚ

/-- The `Transition` constructor: `currentValue = startValue`, default easing
linear, default delay 0, all flags false. -/
def Transition.create (startValue endValue duration : ℚ)
    (converter : Converter) : Transition :=
  { startValue := startValue, endValue := endValue, duration := duration
    converter := converter, easing := LinearEasing, delay := 0
    currentValue := startValue, isStarted := false, isPaused := false
    isEnded := false, lastUpdateTime := Option.none, runningTime := 0 }

/-- Builder `setEasing`. -/
def Transition.setEasing (t : Transition) (easing : Easing) : Transition :=
  { t with easing := easing }

/-- Builder `setDelay`. -/
def Transition.setDelay (t : Transition) (delay : ℚ) : Transition :=
  { t with delay := delay }

/-- Getter `isRunning`: started, not paused, not ended. -/
def Transition.isRunning (t : Transition) : Bool :=
  t.isStarted && !t.isPaused && !t.isEnded

/-- Getter `fraction`: `1` whenever `duration` is falsy (zero), otherwise
`clamp((runningTime - delay) / duration, 0, 1)`. -/
def Transition.fraction (t : Transition) : ℚ :=
  if t.duration = 0 then 1
  else min (max 0 ((t.runningTime - t.delay) / t.duration)) 1

/-- The current value recomputed by `updateCurrentValue`: project start and end
values through the converter to numbers, apply the easing to the fraction,
interpolate linearly and project back. -/
def Transition.interpolatedValue (t : Transition) : ℚ :=
  t.converter.convertFromNumber
    (t.converter.convertToNumber t.startValue +
      t.easing t.fraction * (t.converter.convertToNumber t.endValue -
        t.converter.convertToNumber t.startValue))

/-- Private `updateCurrentValue`: recompute `currentValue` through converter and
easing; if the fraction is exactly 1 the transition ends as part of the same
recomputation, firing update callbacks and then end callbacks. -/
def Transition.updateCurrentValue (t : Transition) :
    Transition × List TransitionEvent :=
  if t.fraction = 1 then
    ({ t with currentValue := t.interpolatedValue, isEnded := true },
     [TransitionEvent.updated t.interpolatedValue,
      TransitionEvent.ended t.interpolatedValue])
  else
    ({ t with currentValue := t.interpolatedValue },
     [TransitionEvent.updated t.interpolatedValue])

/-- `start()`: throws if already ended, returns unchanged if already started,
otherwise sets the started flag, notifies start callbacks and recomputes the
current value once (which makes a zero-duration transition end synchronously). -/
def Transition.start (t : Transition) :
    Except String (Transition × List TransitionEvent) :=
  if t.isEnded then .error "Cannot start a transition that has already ended"
  else if t.isStarted then .ok (t, [])
  else
    let t' : Transition := { t with isStarted := true }
    let r := t'.updateCurrentValue
    .ok (r.1, TransitionEvent.started t'.currentValue :: r.2)

/-- `pause()`: throws if already ended, no-op if already paused. -/
def Transition.pause (t : Transition) :
    Except String (Transition × List TransitionEvent) :=
  if t.isEnded then .error "Cannot pause a transition that has already ended"
  else if t.isPaused then .ok (t, [])
  else .ok ({ t with isPaused := true }, [TransitionEvent.paused t.currentValue])

/-- `resume()`: throws if already ended, no-op if not paused. -/
def Transition.resume (t : Transition) :
    Except String (Transition × List TransitionEvent) :=
  if t.isEnded then .error "Cannot resume a transition that has already ended"
  else if !t.isPaused then .ok (t, [])
  else .ok ({ t with isPaused := false }, [TransitionEvent.resumed t.currentValue])

/-- `cancel(snapToEnd)`: no-op unless currently running; marks the transition
ended and, if `snapToEnd`, snaps the current value to the end value and fires an
update notification before the end notification. -/
def Transition.cancel (t : Transition) (snapToEnd : Bool) :
    Transition × List TransitionEvent :=
  if !t.isRunning then (t, [])
  else
    let t' : Transition := { t with isEnded := true }
    if snapToEnd then
      let t'' : Transition := { t' with currentValue := t'.endValue }
      (t'', [TransitionEvent.updated t''.currentValue,
             TransitionEvent.ended t''.currentValue])
    else (t', [TransitionEvent.ended t'.currentValue])

/-- `update(time)`: while not running only records the last-seen time; while
running accumulates elapsed time since the previous update and recomputes. -/
def Transition.update (t : Transition) (time : ℚ) :
    Transition × List TransitionEvent :=
  if !t.isRunning then ({ t with lastUpdateTime := some time }, [])
  else
    let t' : Transition :=
      match t.lastUpdateTime with
      | some last => { t with runningTime := t.runningTime + (time - last)
                              lastUpdateTime := some time }
      | Option.none => { t with lastUpdateTime := some time }
    t'.updateCurrentValue

/-- A concrete transition that has already ended. -/
def demoEndedTransition : Transition :=
  { Transition.create 0 1 0 IdentityConverter with isStarted := true, isEnded := true }

/-- A concrete transition that is currently running (started, not paused, not
ended). -/
def demoRunningTransition : Transition :=
  { Transition.create 0 1 100 IdentityConverter with isStarted := true }

/-- A concrete transition that is started and paused. -/
def demoPausedTransition : Transition :=
  { Transition.create 0 1 100 IdentityConverter with isStarted := true, isPaused := true }

/-- Setter for `fraction`: throws if ended, otherwise recomputes `runningTime`
from the clamped fraction and forces a value recomputation. -/
def Transition.setFraction (t : Transition) (fraction : ℚ) :
    Except String (Transition × List TransitionEvent) :=
  if t.isEnded then
    .error "Cannot change fraction for a transition that has already ended"
  else
    .ok (Transition.updateCurrentValue
      { t with runningTime := t.delay + min (max 0 fraction) 1 * t.duration })

/-! ## Property values (src/engine/PropertyValue.ts) -/

/-- Element types, `ELEMENT_TYPES` of `src/engine/ElementProperties.ts`. -/
inductive ElementType
  | background | figure | foreground | avatar | name | text | choice
  | music | sound | voice | video | effect
deriving DecidableEq, Repr

/-- The string a given `ElementType` constructor denotes in the source. -/
def ElementType.str : ElementType → String
  | .background => "background"
  | .figure => "figure"
  | .foreground => "foreground"
  | .avatar => "avatar"
  | .name => "name"
  | .text => "text"
  | .choice => "choice"
  | .music => "music"
  | .sound => "sound"
  | .voice => "voice"
  | .video => "video"
  | .effect => "effect"

/-- Time units of `TimeValue` (`s`, `ms`, seconds/milliseconds per element). -/
inductive TimeUnit | s | ms | spe | mspe
deriving DecidableEq, Repr

/-- Angle units of `AngleValue`. -/
inductive AngleUnit | deg | rad | grad | turn
deriving DecidableEq, Repr

/-- The tagged property-value objects of `src/engine/PropertyValue.ts`. -/
inductive PropertyValue
  | initial
  | noneV
  | zero
  | angle (value : ℚ) (unit : AngleUnit)
  | booleanV (value : Bool)
  | number (value : ℚ)
  | lengthPx (value : ℚ)
  | stringV (value : String)
  | percentage (value : ℚ)
  | time (value : ℚ) (unit : TimeUnit)
deriving DecidableEq, Repr

/-- The JavaScript double constant `Math.PI` used by `AngleValue.resolve`. -/
def mathPi : ℚ := 3.141592653589793

namespace NoneValue

/-- `NoneValue.resolve`: the `none` sentinel symbol is modelled as `Unit`. -/
def resolve (value : PropertyValue) : Option Unit :=
  match value with
  | .noneV => some () | _ => Option.none

end NoneValue

namespace ZeroValue

/-- `ZeroValue.resolve`. -/
def resolve (value : PropertyValue) : Option ℚ :=
  match value with
  | .zero => some 0 | _ => Option.none

end ZeroValue

namespace AngleValue

/-- `AngleValue.resolve`: converts to radians. -/
def resolve (value : PropertyValue) : Option ℚ :=
  match value with
  | .angle v u =>
    some (match u with
      | .deg => v * mathPi / 180
      | .rad => v
      | .grad => v * mathPi / 200
      | .turn => v * 2 * mathPi)
  | _ => Option.none

end AngleValue

namespace BooleanValue

/-- `BooleanValue.resolve`. -/
def resolve (value : PropertyValue) : Option Bool :=
  match value with
  | .booleanV b => some b | _ => Option.none

end BooleanValue

namespace NumberValue

/-- `NumberValue.resolve`. -/
def resolve (value : PropertyValue) : Option ℚ :=
  match value with
  | .number v => some v | _ => Option.none

end NumberValue

namespace LengthValue

/-- `LengthValue.resolve`: the only unit is `px`. -/
def resolve (value : PropertyValue) : Option ℚ :=
  match value with
  | .lengthPx v => some v | _ => Option.none

end LengthValue

namespace PercentageValue

/-- `PercentageValue.resolve` against a parent value. -/
def resolve (value : PropertyValue) (parentValue : ℚ) : Option ℚ :=
  match value with
  | .percentage v => some (v / 100 * parentValue) | _ => Option.none

end PercentageValue

namespace StringValue

/-- `StringValue.resolve`. -/
def resolve (value : PropertyValue) : Option String :=
  match value with
  | .stringV s => some s | _ => Option.none

end StringValue

namespace TimeValue

/-- `TimeValue.resolve`: converts to milliseconds, scaling per-element units by
the element count. -/
def resolve (value : PropertyValue) (elementCount : ℚ) : Option ℚ :=
  match value with
  | .time v u =>
    some (match u with
      | .s => v * 1000
      | .ms => v
      | .spe => v * 1000 * elementCount
      | .mspe => v * elementCount)
  | _ => Option.none

end TimeValue

/-! ## Element properties and resolved properties
(src/engine/ElementProperties.ts, src/view/ElementResolvedProperties.ts) -/

/-- `BaseElementProperties`: declarative slot state shared by all kinds. -/
structure BaseElementProperties where
  type : ElementType
  index : ℚ
  value : Option PropertyValue
  transitionDuration : Option PropertyValue
  transitionEasing : Option PropertyValue
deriving DecidableEq, Repr

/-- `ImageElementProperties`: image-kind declarative properties. -/
structure ImageElementProperties extends BaseElementProperties where
  anchorX : Option PropertyValue
  anchorY : Option PropertyValue
  positionX : Option PropertyValue
  positionY : Option PropertyValue
  offsetX : Option PropertyValue
  offsetY : Option PropertyValue
  pivotX : Option PropertyValue
  pivotY : Option PropertyValue
  scaleX : Option PropertyValue
  scaleY : Option PropertyValue
  skewX : Option PropertyValue
  skewY : Option PropertyValue
  rotation : Option PropertyValue
  alpha : Option PropertyValue
deriving DecidableEq, Repr

/-- The private `resolvePropertyValue` helper of
`src/view/ElementResolvedProperties.ts`: an absent declarative value resolves to
nothing; a present value that the resolver cannot interpret throws. -/
def resolvePropertyValue {α : Type} (value : Option PropertyValue)
    (resolve : PropertyValue → Option α) : Except String (Option α) :=
  match value with
  | Option.none => .ok Option.none
  | some v =>
    match resolve v with
    | Option.none => .error "Unable to resolve value"
    | some r => .ok (some r)

/-- The result of `NoneValue.resolve(it) ?? StringValue.resolve(it)` inside
`resolveElementValue`: either the `none` sentinel or a string. -/
inductive ElementValue
  | noneSymbol
  | stringValue (s : String)
deriving DecidableEq, Repr

/-- The resolver passed by `resolveElementValue`. -/
def resolveElementValueRaw (v : PropertyValue) : Option ElementValue :=
  match NoneValue.resolve v with
  | some _ => some .noneSymbol
  | Option.none => (StringValue.resolve v).map .stringValue

/-- `resolveElementValue`: the slot display value, `Option.none` both when the
`value` property is absent and when it resolves to the `none` sentinel. -/
def resolveElementValue (properties : BaseElementProperties) :
    Except String (Option String) := do
  let value ← resolvePropertyValue properties.value resolveElementValueRaw
  match value with
  | some .noneSymbol => pure Option.none
  | some (.stringValue s) => pure (some s)
  | Option.none => pure Option.none

/-- `resolveElementTransitionDuration`: kind-specific default duration,
overridden by a declared `transitionDuration`. -/
def resolveElementTransitionDuration (properties : BaseElementProperties)
    (elementCount : ℚ) : Except String ℚ := do
  let defaultTransitionDuration : ℚ :=
    match properties.type with
    | .background => 1000
    | .figure => 500
    | .foreground => 500
    | .avatar => 500
    | .name => 0
    | .text => 50 * elementCount
    | .choice => 500
    | .music => 1000
    | .sound => 0
    | .voice => 0
    | .video => 0
    | .effect => 0
  let r ← resolvePropertyValue properties.transitionDuration
    (fun it => ZeroValue.resolve it <|> TimeValue.resolve it elementCount)
  pure (r.getD defaultTransitionDuration)

/-- `resolveElementPropertyTransitionEasing`: kind- and property-specific
default easing name, overridden by a declared `transitionEasing`. -/
def resolveElementPropertyTransitionEasing (properties : BaseElementProperties)
    (propertyName : String) : Except String String := do
  let defaultTransitionEasing : String :=
    match properties.type with
    | .background | .figure | .foreground | .avatar =>
      if propertyName = "value" ∨ propertyName = "alpha" then "linear" else "ease"
    | .name | .text | .choice =>
      if propertyName = "value" then "linear" else "ease"
    | .music | .sound | .voice =>
      if propertyName = "value" ∨ propertyName = "volume" then "linear" else "ease"
    | .video =>
      if propertyName = "value" ∨ propertyName = "alpha" ∨ propertyName = "volume"
      then "linear" else "ease"
    | .effect =>
      if propertyName = "value" then "linear" else "ease"
  let r ← resolvePropertyValue properties.transitionEasing StringValue.resolve
  pure (r.getD defaultTransitionEasing)

/-- `ImageElementResolvedProperties`: the numeric projection of an image slot. -/
structure ImageElementResolvedProperties where
  value : ℚ
  anchorX : ℚ
  anchorY : ℚ
  positionX : ℚ
  positionY : ℚ
  offsetX : ℚ
  offsetY : ℚ
  pivotX : ℚ
  pivotY : ℚ
  scaleX : ℚ
  scaleY : ℚ
  skewX : ℚ
  skewY : ℚ
  rotation : ℚ
  alpha : ℚ
deriving DecidableEq, Repr

/-- `ImageElementResolvedProperties.ResolveOptions`.  The source reads
`figureIndex!`, `figureCount!`, `avatarPositionX!` and `avatarPositionY!` with
non-null assertions in the `figure`/`avatar` branches; their absence there is
modelled as an error. -/
structure ImageResolveOptions where
  valueChanged : Bool
  screenWidth : ℚ
  screenHeight : ℚ
  imageWidth : ℚ
  imageHeight : ℚ
  figureIndex : Option ℚ
  figureCount : Option ℚ
  avatarPositionX : Option ℚ
  avatarPositionY : Option ℚ
deriving DecidableEq, Repr

/-- `ImageElementResolvedProperties.resolve`. -/
def ImageElementResolvedProperties.resolve (properties : ImageElementProperties)
    (options : ImageResolveOptions) :
    Except String ImageElementResolvedProperties := do
  let value : ℚ := if options.valueChanged then 0 else 1
  let anchorX := (← resolvePropertyValue properties.anchorX (fun it =>
      ZeroValue.resolve it <|> LengthValue.resolve it <|>
        PercentageValue.resolve it options.imageWidth)).getD
    (if properties.type = .figure then options.imageWidth / 2 else 0)
  let anchorY := (← resolvePropertyValue properties.anchorY (fun it =>
      ZeroValue.resolve it <|> LengthValue.resolve it <|>
        PercentageValue.resolve it options.imageHeight)).getD
    (if properties.type = .figure then options.imageHeight else 0)
  let defaultPosition : ℚ × ℚ ←
    match properties.type with
    | .figure =>
      match options.figureIndex, options.figureCount with
      | some figureIndex, some figureCount =>
        pure (figureIndex / (figureCount + 1) * options.screenWidth,
          options.screenHeight)
      | _, _ => .error "missing figure transition options"
    | .avatar =>
      match options.avatarPositionX, options.avatarPositionY with
      | some avatarPositionX, some avatarPositionY =>
        pure (avatarPositionX, avatarPositionY)
      | _, _ => .error "missing avatar transition options"
    | _ => pure (0, 0)
  let positionX := (← resolvePropertyValue properties.positionX (fun it =>
      ZeroValue.resolve it <|> LengthValue.resolve it <|>
        PercentageValue.resolve it options.screenWidth)).getD defaultPosition.1
  let positionY := (← resolvePropertyValue properties.positionY (fun it =>
      ZeroValue.resolve it <|> LengthValue.resolve it <|>
        PercentageValue.resolve it options.screenHeight)).getD defaultPosition.2
  let offsetX := (← resolvePropertyValue properties.offsetX (fun it =>
      ZeroValue.resolve it <|> LengthValue.resolve it <|>
        PercentageValue.resolve it options.screenWidth)).getD
    (if properties.type = .figure then options.screenWidth else 0)
  let offsetY := (← resolvePropertyValue properties.offsetY (fun it =>
      ZeroValue.resolve it <|> LengthValue.resolve it <|>
        PercentageValue.resolve it options.screenHeight)).getD
    (if properties.type = .figure then options.screenHeight else 0)
  let pivotX := (← resolvePropertyValue properties.pivotX (fun it =>
      ZeroValue.resolve it <|> LengthValue.resolve it <|>
        PercentageValue.resolve it options.imageWidth)).getD
    (options.imageWidth / 2)
  let pivotY := (← resolvePropertyValue properties.pivotY (fun it =>
      ZeroValue.resolve it <|> LengthValue.resolve it <|>
        PercentageValue.resolve it options.imageHeight)).getD
    (options.imageHeight / 2)
  let scaleX := (← resolvePropertyValue properties.scaleX (fun it =>
      NumberValue.resolve it <|> PercentageValue.resolve it 1)).getD 1
  let scaleY := (← resolvePropertyValue properties.scaleY (fun it =>
      NumberValue.resolve it <|> PercentageValue.resolve it 1)).getD 1
  let skewX := (← resolvePropertyValue properties.skewX (fun it =>
      ZeroValue.resolve it <|> AngleValue.resolve it)).getD 0
  let skewY := (← resolvePropertyValue properties.skewY (fun it =>
      ZeroValue.resolve it <|> AngleValue.resolve it)).getD 0
  let rotation := (← resolvePropertyValue properties.rotation (fun it =>
      ZeroValue.resolve it <|> AngleValue.resolve it)).getD 0
  let alpha := (← resolvePropertyValue properties.alpha (fun it =>
      NumberValue.resolve it <|> PercentageValue.resolve it 1)).getD 1
  pure { value := value, anchorX := anchorX, anchorY := anchorY
         positionX := positionX, positionY := positionY
         offsetX := offsetX, offsetY := offsetY
         pivotX := pivotX, pivotY := pivotY
         scaleX := scaleX, scaleY := scaleY
         skewX := skewX, skewY := skewY
         rotation := rotation, alpha := alpha }

/-! ## View ordinal computation (src/view/View.ts, update, lines 148 to 172) -/

/-- Lexicographic comparison of character lists, used to model the JavaScript
`<` operator on strings (code-unit order; identical to code-point order for
the ASCII type names involved). -/
def charListLt : List Char → List Char → Bool
  | [], [] => false
  | [], _ :: _ => true
  | _ :: _, [] => false
  | a :: as, b :: bs =>
    if a < b then true else if b < a then false else charListLt as bs

/-- JavaScript `<` on strings. -/
def strLt (a b : String) : Bool := charListLt a.data b.data

/-- Stable insertion of one element into a sorted list; together with `sortBy`
this models the stable `Array.prototype.sort` used on element names. -/
def sortInsert {α : Type} (le : α → α → Bool) (x : α) : List α → List α
  | [] => [x]
  | y :: ys => if le y x then y :: sortInsert le x ys else x :: y :: ys

/-- Stable sort by a boolean comparator, modelling `Array.prototype.sort`. -/
def sortBy {α : Type} (le : α → α → Bool) : List α → List α
  | [] => []
  | x :: xs => sortInsert le x (sortBy le xs)

/-- The comparator of `View.update` on element names: by type (string order of
the type name), then by declared index (the comparator returns the index
difference, so ascending order is index order). -/
def viewElementLe (l r : String × BaseElementProperties) : Bool :=
  if strLt l.2.type.str r.2.type.str then true
  else if strLt r.2.type.str l.2.type.str then false
  else decide (l.2.index ≤ r.2.index)

/-- Insert-or-replace a per-type counter. -/
def upsertCount (l : List (ElementType × Nat)) (k : ElementType) (n : Nat) :
    List (ElementType × Nat) :=
  if l.any (fun p => p.1 == k) then
    l.map (fun p => if p.1 == k then (k, n) else p)
  else l ++ [(k, n)]

/-- The element-ordinal loop of `View.update`: in sorted order, each element
that resolves to a non-empty value receives the current count of visible
same-type elements as its 0-based ordinal, and the per-type count is bumped.
Returns (`elementIndices`, `elementTypeCounts`). -/
def viewComputeOrdinals (elements : List (String × BaseElementProperties)) :
    Except String (List (String × Nat) × List (ElementType × Nat)) :=
  (sortBy viewElementLe elements).foldlM
    (fun (acc : List (String × Nat) × List (ElementType × Nat)) p => do
      let v ← resolveElementValue p.2
      match v with
      | Option.none => pure acc
      | some _ =>
        let elementTypeCount := ((acc.2.find? (fun q => q.1 == p.2.type)).map
          (fun q => q.2)).getD 0
        pure (acc.1 ++ [(p.1, elementTypeCount)],
          upsertCount acc.2 p.2.type (elementTypeCount + 1)))
    ([], [])

/-- Image element properties for the C1 scenario: a `figure` slot with a plain
string value and no other declared properties. -/
def c1FigureProperties (v : String) (index : ℚ) : ImageElementProperties :=
  { type := ElementType.figure, index := index
    value := some (PropertyValue.stringV v)
    transitionDuration := Option.none, transitionEasing := Option.none
    anchorX := Option.none, anchorY := Option.none
    positionX := Option.none, positionY := Option.none
    offsetX := Option.none, offsetY := Option.none
    pivotX := Option.none, pivotY := Option.none
    scaleX := Option.none, scaleY := Option.none
    skewX := Option.none, skewY := Option.none
    rotation := Option.none, alpha := Option.none }

/-- The C1 scenario snapshot: `figure1` with value `a.png`, `figure2` with
value `b.png`. -/
def c1Elements : List (String × BaseElementProperties) :=
  [("figure1", (c1FigureProperties "a.png" 1).toBaseElementProperties),
   ("figure2", (c1FigureProperties "b.png" 2).toBaseElementProperties)]

/-- The `ImageResolveOptions` the View passes for a figure slot with the given
ordinal and visible count (no explicit positions declared). -/
def c1Options (screenWidth screenHeight imageWidth imageHeight : ℚ)
    (figureIndex figureCount : ℚ) : ImageResolveOptions :=
  { valueChanged := false
    screenWidth := screenWidth, screenHeight := screenHeight
    imageWidth := imageWidth, imageHeight := imageHeight
    figureIndex := some figureIndex, figureCount := some figureCount
    avatarPositionX := Option.none, avatarPositionY := Option.none }

/-! ## Element transition machinery (src/view/Element.ts with src/view/Clock.ts)

`BaseElement.transition` / `transitionPropertyValue` mutate, per element: the
`objectTransitions` and `propertyTransitions` multimaps, the Clock's
frame-callback registry (keyed by transition identity), and the objects'
resolved property values.  Objects and transitions are modelled by numeric
identities; the synchronous JavaScript call stack of nested callback
invocations (a cancel fires update/end callbacks, whose end callback may cancel
further transitions and destroy the object) is modelled by an explicit task
stack driven by fuel. -/

/-- A resolved property value as stored on an object: numeric, boolean, string
or `undefined`.  `transitionPropertyValue` only animates numeric values. -/
inductive EValue
  | num (q : ℚ)
  | boolV (b : Bool)
  | strV (s : String)
  | undef
deriving DecidableEq, Repr

/-- The implicit cast when `transitionPropertyValue` reads the current value of
a numeric property (always numeric in reachable states). -/
def EValue.toNumD : EValue → ℚ
  | .num q => q
  | _ => 0

/-- A `Transition` created by `transitionPropertyValue`, tagged with its
identity, owning object and the resolved property name it animates. -/
structure ETrans where
  id : Nat
  object : Nat
  propertyName : String
  tr : Transition

/-- State of one `BaseElement` together with the Clock's frame-callback
registry: a fresh-identity counter, all live transition objects, the two
multimaps (as key/identity pair lists), the registered frame callbacks, the
objects' property stores, and logs of `detachObject`/`destroyObject` calls. -/
structure ElemState where
  nextId : Nat
  transitions : List ETrans
  objectTransitions : List (Nat × Nat)
  propertyTransitions : List (String × Nat)
  clockFrames : List Nat
  propVal : Nat → String → EValue
  detachedLog : List Nat
  destroyedLog : List Nat

/-- Look up a transition by identity. -/
def ElemState.findTrans (s : ElemState) (tid : Nat) : Option ETrans :=
  s.transitions.find? (fun t => t.id == tid)

/-- Replace the `Transition` value of the given identity. -/
def ElemState.setTr (s : ElemState) (tid : Nat) (tr : Transition) : ElemState :=
  let f := fun (t : ETrans) => if t.id == tid then { t with tr := tr } else t
  { s with transitions := s.transitions.map f }

/-- `setPropertyValue(object, propertyName, value)`. -/
def ElemState.writeProp (s : ElemState) (o : Nat) (p : String) (v : EValue) :
    ElemState :=
  { s with propVal := fun o' p' =>
      if o' = o ∧ p' = p then v else s.propVal o' p' }

/-- The removals at the head of the end callback registered by
`transitionPropertyValue`: `objectTransitions.remove`,
`propertyTransitions.remove` and `clock.removeFrameCallback`. -/
def ElemState.removeRegs (s : ElemState) (et : ETrans) : ElemState :=
  let fo := fun (q : Nat × Nat) => !(q.1 == et.object && q.2 == et.id)
  let fp := fun (q : String × Nat) => !(q.1 == et.propertyName && q.2 == et.id)
  let fc := fun (i : Nat) => !(i == et.id)
  { s with
    objectTransitions := s.objectTransitions.filter fo
    propertyTransitions := s.propertyTransitions.filter fp
    clockFrames := s.clockFrames.filter fc }

/-- One pending piece of synchronous work on the JavaScript call stack:
cancelling a transition, delivering a transition's pending callback
notifications, or the detach/destroy pair for an outgoing object. -/
inductive ElemTask
  | cancelT (tid : Nat)
  | eventsT (et : ETrans) (evs : List TransitionEvent)
  | destroyT (object : Nat)

/-- Run pending tasks to completion, returning the state and leftover fuel
(`Option.none` on fuel exhaustion, which never happens for adequate fuel).

* `cancelT tid` is `transition.cancel()` on the transition with identity `tid`
  (a no-op when unknown or not running).
* `eventsT et evs` delivers pending notifications of `et`: the update callback
  is `setPropertyValue(object, propertyName, it)`; the end callback removes the
  registrations and, when the property is `value` with end value exactly 0,
  cancels the object's other transitions (a snapshot, as `Array.from`) and then
  detaches and destroys the object.
* `destroyT o` performs the trailing `detachObject(o); destroyObject(o)`. -/
def elemRun : Nat → ElemState → List ElemTask → Option (ElemState × Nat)
  | fuel, s, [] => some (s, fuel)
  | 0, _, _ :: _ => Option.none
  | Nat.succ fuel, s, task :: rest =>
    match task with
    | .cancelT tid =>
      match s.findTrans tid with
      | Option.none => elemRun fuel s rest
      | some et =>
        let r := et.tr.cancel true
        elemRun fuel (s.setTr tid r.1)
          (.eventsT { et with tr := r.1 } r.2 :: rest)
    | .eventsT _ [] => elemRun fuel s rest
    | .eventsT et (ev :: evs) =>
      match ev with
      | .updated v =>
        elemRun fuel (s.writeProp et.object et.propertyName (.num v))
          (.eventsT et evs :: rest)
      | .ended _ =>
        let s' := s.removeRegs et
        if et.propertyName = "value" ∧ et.tr.endValue = 0 then
          let cascade := (s'.objectTransitions.filter
            (fun q => q.1 == et.object)).map (fun q => ElemTask.cancelT q.2)
          elemRun fuel s'
            (cascade ++ ElemTask.destroyT et.object ::
              ElemTask.eventsT et evs :: rest)
        else
          elemRun fuel s' (.eventsT et evs :: rest)
      | _ => elemRun fuel s (.eventsT et evs :: rest)
    | .destroyT o =>
      elemRun fuel
        { s with detachedLog := s.detachedLog ++ [o]
                 destroyedLog := s.destroyedLog ++ [o] } rest

/-- `BaseElement.transitionPropertyValue`: a non-numeric value is written
directly; for a numeric target a `Transition` is created from the current
property value with the given delay, duration and easing, an update callback
writing the property and the end callback described above are attached, the
transition is registered in both multimaps and with the clock
(`addFrameCallback` keyed by the transition, replacing any prior entry under
the same identity), and it is started — processing any callbacks the start
fires synchronously (for a zero-duration transition this includes the end
callback). -/
def transitionPropertyValue (fuel : Nat) (s : ElemState) (object : Nat)
    (propertyName : String) (propertyValue : EValue)
    (transitionDelay transitionDuration : ℚ) (transitionEasing : Easing) :
    Option ElemState :=
  match propertyValue with
  | .num target =>
    let currentPropertyValue := (s.propVal object propertyName).toNumD
    let tr0 := ((Transition.create currentPropertyValue target
      transitionDuration IdentityConverter).setDelay
        transitionDelay).setEasing transitionEasing
    let tid := s.nextId
    let et : ETrans :=
      { id := tid, object := object, propertyName := propertyName, tr := tr0 }
    let s1 : ElemState :=
      { s with nextId := s.nextId + 1
               transitions := s.transitions ++ [et]
               objectTransitions := s.objectTransitions ++ [(object, tid)]
               propertyTransitions :=
                 s.propertyTransitions ++ [(propertyName, tid)]
               clockFrames := if tid ∈ s.clockFrames then s.clockFrames
                              else s.clockFrames ++ [tid] }
    match tr0.start with
    | .error _ => Option.none
    | .ok r =>
      match elemRun fuel (s1.setTr tid r.1) [.eventsT { et with tr := r.1 } r.2] with
      | some p => some p.1
      | Option.none => Option.none
  | v => some (s.writeProp object propertyName v)

/-- The four resolved values of one property as seen by one iteration of the
property loop of `BaseElement.transition` (`undefined` stands for an absent
object's record). -/
structure PropertyStepValues where
  oldObjectOld : EValue
  oldObjectNew : EValue
  newObjectOld : EValue
  newObjectNew : EValue
deriving DecidableEq, Repr

/-- One iteration of the property loop of `BaseElement.transition`: if the
property's before/after value differs on either object, every existing
transition under that property name is cancelled first; then the outgoing
object's replacement transition is started with delay 0 and the incoming
object's with the supplied delay. -/
def propertyStep (fuel : Nat) (s : ElemState) (propertyName : String)
    (oldObject newObject : Option Nat) (r : PropertyStepValues)
    (transitionEasing : Easing)
    (oldObjectTransitionDuration newObjectTransitionDelay
      newObjectTransitionDuration : ℚ) : Option ElemState :=
  let oldObjectChanged : Bool := decide (r.oldObjectOld ≠ r.oldObjectNew)
  let newObjectChanged : Bool := decide (r.newObjectOld ≠ r.newObjectNew)
  let step1 : Option ElemState :=
    if oldObjectChanged || newObjectChanged then
      match elemRun fuel s ((s.propertyTransitions.filter
          (fun q => q.1 == propertyName)).map (fun q => ElemTask.cancelT q.2)) with
      | some p => some p.1
      | Option.none => Option.none
    else some s
  step1.bind (fun s1 =>
    let step2 : Option ElemState :=
      if oldObjectChanged then
        match oldObject with
        | some o =>
          transitionPropertyValue fuel s1 o propertyName r.oldObjectNew 0
            oldObjectTransitionDuration transitionEasing
        | Option.none => some s1
      else some s1
    step2.bind (fun s2 =>
      if newObjectChanged then
        match newObject with
        | some o =>
          transitionPropertyValue fuel s2 o propertyName r.newObjectNew
            newObjectTransitionDelay newObjectTransitionDuration
            transitionEasing
        | Option.none => some s2
      else some s2))

/-- `BaseElement.getElementTransitionEasing`: only `linear` and `ease` are
supported; `easeFn` stands for `CssEasings.Ease`, whose numeric bezier
definition lives in the external `bezier-easing` package. -/
def getElementTransitionEasing (easeFn : Easing) (name : String) :
    Except String Easing :=
  match name with
  | "linear" => .ok LinearEasing
  | "ease" => .ok easeFn
  | _ => .error "Unsupported transition easing"

/-- The `crossFade` constructor argument each element class passes to
`BaseElement` (`super(clock, crossFade)`), per element type as instantiated by
`View.update`. -/
def elementClassCrossFade : ElementType → Bool
  | .background => true
  | .figure => true
  | .foreground => true
  | .avatar => true
  | .name => false
  | .text => false
  | .choice => false
  | .music => true
  | .sound => true
  | .voice => true
  | .video => true
  | .effect => false

/-- Lines 152 to 208 of `BaseElement.transition`: compute the outgoing object's
transition duration from the new declarative properties (0 when there is no
outgoing object), derive the incoming object's delay — 0 when the element kind
cross-fades, otherwise the outgoing duration — compute the incoming duration,
and run the property loop with the per-property default easing. -/
def elementTransitionCommit (fuel : Nat) (s : ElemState) (crossFade : Bool)
    (oldObject newObject : Option Nat) (newProperties : BaseElementProperties)
    (oldElementCount newElementCount : ℚ) (propertyNames : List String)
    (oldObjectOldProps oldObjectNewProps newObjectOldProps newObjectNewProps :
      String → EValue)
    (easeFn : Easing) : Except String (Option ElemState) := do
  let oldObjectTransitionDuration ←
    match oldObject with
    | some _ => resolveElementTransitionDuration newProperties oldElementCount
    | Option.none => pure 0
  let newObjectTransitionDelay : ℚ :=
    if crossFade then 0 else oldObjectTransitionDuration
  let newObjectTransitionDuration ←
    match newObject with
    | some _ => resolveElementTransitionDuration newProperties newElementCount
    | Option.none => pure 0
  propertyNames.foldlM
    (fun (acc : Option ElemState) p => do
      match acc with
      | Option.none => pure Option.none
      | some s => do
        let easingName ← resolveElementPropertyTransitionEasing newProperties p
        let easing ← getElementTransitionEasing easeFn easingName
        pure (propertyStep fuel s p oldObject newObject
          { oldObjectOld := oldObjectOldProps p
            oldObjectNew := oldObjectNewProps p
            newObjectOld := newObjectOldProps p
            newObjectNew := newObjectNewProps p }
          easing oldObjectTransitionDuration newObjectTransitionDelay
          newObjectTransitionDuration))
    (some s)

/-- The fields of a transition that no operation of the element machinery ever
mutates (identity, object, property, delay, duration, endpoints) together with
the started/paused flags, which `cancel` preserves. -/
def sigOf (t : ETrans) : Nat × Nat × String × ℚ × ℚ × ℚ × ℚ × Bool × Bool :=
  (t.id, t.object, t.propertyName, t.tr.delay, t.tr.duration,
    t.tr.startValue, t.tr.endValue, t.tr.isStarted, t.tr.isPaused)

/-- A pending end notification for identity `tid` carried by an events task. -/
def PendingEndEvents (tasks : List ElemTask) (tid : Nat) : Prop :=
  ∃ et evs, ElemTask.eventsT et evs ∈ tasks ∧ et.id = tid ∧
    ∃ v, TransitionEvent.ended v ∈ evs

/-- Identity `tid` is due to be deregistered: a pending cancel or a pending end
notification. -/
def PendingEnd (tasks : List ElemTask) (tid : Nat) : Prop :=
  ElemTask.cancelT tid ∈ tasks ∨ PendingEndEvents tasks tid

/-- Structural well-formedness of an element state: identities are bounded by
the fresh counter and unique; every registration references a live transition
with matching key; the clock registry and the two multimaps stay in sync; at
most one transition per (object, property) pair is registered with the clock;
every transition is started and unpaused (the element machinery never pauses a
transition); and a transition only ever loses its registration by ending. -/
structure ElemWF (s : ElemState) : Prop where
  idBound : ∀ t ∈ s.transitions, t.id < s.nextId
  idNodup : (s.transitions.map (fun t => t.id)).Nodup
  clockLive : ∀ i ∈ s.clockFrames, ∃ t ∈ s.transitions, t.id = i
  objLive : ∀ q ∈ s.objectTransitions, ∃ t ∈ s.transitions,
    t.id = q.2 ∧ t.object = q.1
  propLive : ∀ q ∈ s.propertyTransitions, ∃ t ∈ s.transitions,
    t.id = q.2 ∧ t.propertyName = q.1
  syncObj : ∀ t ∈ s.transitions,
    (t.id ∈ s.clockFrames ↔ (t.object, t.id) ∈ s.objectTransitions)
  syncProp : ∀ t ∈ s.transitions,
    (t.id ∈ s.clockFrames ↔ (t.propertyName, t.id) ∈ s.propertyTransitions)
  unique : ∀ t1 ∈ s.transitions, ∀ t2 ∈ s.transitions,
    t1.id ∈ s.clockFrames → t2.id ∈ s.clockFrames →
    t1.object = t2.object → t1.propertyName = t2.propertyName →
    t1.id = t2.id
  startedUnpaused : ∀ t ∈ s.transitions,
    t.tr.isStarted = true ∧ t.tr.isPaused = false
  regOrEnded : ∀ t ∈ s.transitions,
    t.id ∈ s.clockFrames ∨ t.tr.isEnded = true

/-- Tasks are well formed w.r.t. the state: an events task carries a snapshot
matching its live transition, and a pending end notification implies the live
transition is already flagged ended. -/
def TasksWF (s : ElemState) (tasks : List ElemTask) : Prop :=
  ∀ et evs, ElemTask.eventsT et evs ∈ tasks →
    (∃ t ∈ s.transitions, t.id = et.id ∧ t.object = et.object ∧
      t.propertyName = et.propertyName ∧ t.tr.endValue = et.tr.endValue) ∧
    ((∃ v, TransitionEvent.ended v ∈ evs) →
      ∀ t ∈ s.transitions, t.id = et.id → t.tr.isEnded = true)

/-- The machine invariant: structural well-formedness, task well-formedness,
and every registered transition either still running or due to be
deregistered by a pending end notification. -/
structure ElemInv (s : ElemState) (tasks : List ElemTask) : Prop where
  wf : ElemWF s
  tasksWF : TasksWF s tasks
  runningOrPending : ∀ t ∈ s.transitions, t.id ∈ s.clockFrames →
    t.tr.isRunning = true ∨ PendingEndEvents tasks t.id

/-- Tasks that can never reach the destroy branch: no destroy task, and every
cancel or events task concerns a transition that is not a `value`-to-0 one. -/
def SafeTasks (s : ElemState) (tasks : List ElemTask) : Prop :=
  ∀ task ∈ tasks,
    match task with
    | ElemTask.cancelT tid => ∀ t ∈ s.transitions, t.id = tid →
        ¬(t.propertyName = "value" ∧ t.tr.endValue = 0)
    | ElemTask.eventsT et _ => ¬(et.propertyName = "value" ∧ et.tr.endValue = 0)
    | ElemTask.destroyT _ => False

/-! ## Layout (src/view/Layout.ts) -/

/-- `LAYOUT_TRANSITION_DURATION`. -/
def LAYOUT_TRANSITION_DURATION : ℚ := 500

/-- State of `Layout` relevant to `transition`: the known layout names, the
declared layout memberships of each decorative node (nodes modelled as numeric
identities), the per-layout map from element type to container node, and the
active layout name. -/
structure LayoutState where
  layoutNames : List String
  elementLayouts : List (Nat × List String)
  layoutTypeContainerElements : List (String × List (ElementType × Nat))
  layoutName : String
deriving DecidableEq, Repr

/-- The observable outcome of running both steps of the `Layout.transition`
generator: the exit element types yielded after step 1, the layout state
afterwards, and the opacity transitions started in step 1 (fades to 0) and in
step 2 (fades to 1), each recorded as (node, target opacity, duration). -/
structure LayoutRun where
  exitElementTypes : List ElementType
  state : LayoutState
  exitFades : List (Nat × ℚ × ℚ)
  enterFades : List (Nat × ℚ × ℚ)
deriving DecidableEq, Repr

/-- `Layout.transition`: throws on an unknown layout name; records the new
active name; yields an empty exit set and transitions nothing when the old and
new names coincide; otherwise starts exit fades, computes the element types
whose container differs between old and new layout (yielded to the caller,
sorted by type-name string order), and in step 2 starts the enter fades. -/
def layoutTransition (s : LayoutState) (layoutName : String) :
    Except String LayoutRun :=
  if ¬ layoutName ∈ s.layoutNames then .error "Unknown layout"
  else
    let oldLayoutName := s.layoutName
    let newLayoutName := layoutName
    let s' : LayoutState := { s with layoutName := layoutName }
    if oldLayoutName = newLayoutName then
      .ok { exitElementTypes := [], state := s', exitFades := [], enterFades := [] }
    else
      let changed := s'.elementLayouts.filter (fun p =>
        (p.2.contains oldLayoutName) != (p.2.contains newLayoutName))
      let exitElements := (changed.filter
        (fun p => p.2.contains oldLayoutName)).map (fun p => p.1)
      let enterElements := (changed.filter
        (fun p => !(p.2.contains oldLayoutName))).map (fun p => p.1)
      let exitFades := exitElements.map
        (fun e => (e, (0 : ℚ), LAYOUT_TRANSITION_DURATION))
      let oldTypeElements := (s'.layoutTypeContainerElements.find?
        (fun q => q.1 == oldLayoutName)).map (fun q => q.2)
      let newTypeElements := (s'.layoutTypeContainerElements.find?
        (fun q => q.1 == newLayoutName)).map (fun q => q.2)
      let exitElementTypes : List ElementType :=
        match oldTypeElements with
        | Option.none => []
        | some oldTE =>
          (oldTE.filter (fun te =>
            (newTypeElements.bind (fun n =>
              (n.find? (fun q => q.1 == te.1)).map (fun q => q.2))) != some te.2)).map
            (fun te => te.1)
      let exitElementTypes := sortBy
        (fun (a b : ElementType) => !(strLt b.str a.str)) exitElementTypes
      let enterFades := enterElements.map
        (fun e => (e, (1 : ℚ), LAYOUT_TRANSITION_DURATION))
      .ok { exitElementTypes := exitElementTypes, state := s'
            exitFades := exitFades, enterFades := enterFades }

/-- The element destruction loop of the `set_layout` branch of `View.update`:
the names destroyed are exactly those registered under the exit element
types. -/
def viewSetLayoutDestroyedElements (exitElementTypes : List ElementType)
    (typeElementNames : List (ElementType × List String)) : List String :=
  exitElementTypes.foldl (fun acc et =>
    acc ++ (((typeElementNames.find? (fun q => q.1 == et)).map
      (fun q => q.2)).getD [])) []

/-! ## Element and property matching (src/engine/ElementPropertyMatcher.ts) -/

/-- A glob matcher abstracted as a boolean predicate on strings (the source
wraps the external `Minimatch` library behind the `Matcher` interface). -/
def Matcher : Type := String → Bool

/-- `ElementPropertyMatcher`: a list of (element-name matcher, property-name
matcher) pairs. -/
structure ElementPropertyMatcher where
  matchers : List (Matcher × Matcher)

/-- The regex replacement `elementName.replace(/(?<![0-9])1$/, '')`: removes a
single trailing `1` that is not preceded by another digit. -/
def replaceTrailingOne (s : String) : String :=
  match s.data.reverse with
  | '1' :: rest =>
    match rest with
    | c :: _ => if c.isDigit then s else String.mk rest.reverse
    | [] => String.mk []
  | _ => s

/-- The filter inside `getPropertyMatcher`: a pair is included when its element
matcher matches the element name itself or the name with a single trailing
non-digit-preceded `1` removed. -/
def includedPropertyMatchers (m : ElementPropertyMatcher)
    (elementName : String) : List (Matcher × Matcher) :=
  m.matchers.filter (fun it =>
    it.1 elementName || it.1 (replaceTrailingOne elementName))

/-- `ElementPropertyMatcher.getPropertyMatcher`: the returned matcher matches a
property name when any included pair's property matcher does. -/
def ElementPropertyMatcher.getPropertyMatcher (m : ElementPropertyMatcher)
    (elementName : String) : Matcher :=
  fun propertyName =>
    ((includedPropertyMatchers m elementName).map (fun it => it.2)).any
      (fun it => it propertyName)

/-- A concrete matcher pair for the C9 witness: element glob `figure`,
property glob `alpha`. -/
def c9DemoPair : Matcher × Matcher :=
  (fun s => s == "figure", fun p => p == "alpha")

/-- A concrete `ElementPropertyMatcher` for the C9 witness. -/
def c9DemoEPM : ElementPropertyMatcher := ⟨[c9DemoPair]⟩

/-! ## Engine updateView cleanup (src/engine/Engine.ts) -/

/-- `element.value.type === 'none'` of the cleanup in `Engine.updateView`. -/
def PropertyValue.hasNoneType (v : PropertyValue) : Bool :=
  match v with
  | .noneV => true
  | _ => false

/-- `EngineState` of `src/engine/Engine.ts`, with element properties modelled by
their base projection (the cleanup only inspects `value`). -/
structure EngineState where
  fileName : String
  nextCommandIndex : Nat
  layoutName : String
  elements : List (String × BaseElementProperties)
  keepSkippingWait : Bool

/-- The `updateState` recipe at the end of `Engine.updateView`: delete every
element whose `value` is undefined or has type `none`, and reset
`keepSkippingWait` to false. -/
def engineUpdateViewCleanup (s : EngineState) : EngineState :=
  { s with
    elements := s.elements.filter (fun p =>
      match p.2.value with
      | Option.none => false
      | some v => !v.hasNoneType)
    keepSkippingWait := false }

/-- `Engine.updateView`: awaits the view update (which may itself mutate the
engine state, modelled by the `viewUpdate` function returning the
move-to-next-line flag and the state as of the view update's resolution), then
applies the cleanup recipe. -/
def engineUpdateView (s : EngineState)
    (viewUpdate : EngineState → Bool × EngineState) : Bool × EngineState :=
  let r := viewUpdate s
  (r.1, engineUpdateViewCleanup r.2)

/-- Concrete engine state for the C10 witness: one live element, one `none`
element, one element without a value, `keepSkippingWait` set. -/
def c10DemoState : EngineState :=
  { fileName := "main.vnmark", nextCommandIndex := 3, layoutName := "none"
    elements :=
      [("figure1", { type := ElementType.figure, index := 1
                     value := some (PropertyValue.stringV "a.png")
                     transitionDuration := Option.none
                     transitionEasing := Option.none }),
       ("figure2", { type := ElementType.figure, index := 2
                     value := some PropertyValue.noneV
                     transitionDuration := Option.none
                     transitionEasing := Option.none }),
       ("text1", { type := ElementType.text, index := 1
                   value := Option.none
                   transitionDuration := Option.none
                   transitionEasing := Option.none })]
    keepSkippingWait := true }

/-- A concrete layout configuration for the C8 witness. -/
def c8DemoState : LayoutState :=
  { layoutNames := ["a", "none"]
    elementLayouts := [(1, ["a"])]
    layoutTypeContainerElements :=
      [("none", [(ElementType.text, 5)]), ("a", [(ElementType.text, 6)])]
    layoutName := "none" }

/-- The run produced by switching `c8DemoState` to layout `a`. -/
def c8DemoRun : LayoutRun :=
  { exitElementTypes := [ElementType.text]
    state := { c8DemoState with layoutName := "a" }
    exitFades := []
    enterFades := [(1, 1, 500)] }

/-- An element state with nothing live, for concrete runs. -/
def emptyElemState : ElemState :=
  { nextId := 0
    transitions := []
    objectTransitions := []
    propertyTransitions := []
    clockFrames := []
    propVal := fun _ _ => EValue.num 1
    detachedLog := []
    destroyedLog := [] }

/-- Concrete before/after values for a property step: changed on both objects,
numeric targets, no `value`-to-0 teardown. -/
def c2DemoValues : PropertyStepValues :=
  { oldObjectOld := EValue.num 1
    oldObjectNew := EValue.num 2
    newObjectOld := EValue.num 0
    newObjectNew := EValue.num 3 }

/-- The state after the concrete property step. -/
def c2DemoResult : ElemState :=
  match propertyStep 8 emptyElemState "alpha" (some 0) (some 1) c2DemoValues
    LinearEasing 0 0 0 with
  | some st => st
  | Option.none => emptyElemState

/-- Figure-kind declarative properties with a declared zero transition
duration. -/
def c7DemoProps : BaseElementProperties :=
  { type := ElementType.figure
    index := 1
    value := Option.none
    transitionDuration := some PropertyValue.zero
    transitionEasing := Option.none }

/-- The state after the concrete element transition commit. -/
def c7DemoResult : ElemState :=
  match elementTransitionCommit 8 emptyElemState false (some 0) (some 1)
    c7DemoProps 1 1 ["alpha"] (fun _ => EValue.num 1) (fun _ => EValue.num 2)
    (fun _ => EValue.num 0) (fun _ => EValue.num 3) LinearEasing with
  | .ok (some st) => st
  | _ => emptyElemState

/-- A started and already-ended `value`-to-0 transition. -/
def c3DemoTr : Transition :=
  { Transition.create 1 0 0 IdentityConverter with
      isStarted := true, isEnded := true }

/-- Its registration snapshot. -/
def c3DemoET : ETrans :=
  { id := 0, object := 5, propertyName := "value", tr := c3DemoTr }

/-- A state holding exactly that registered transition. -/
def c3DemoState : ElemState :=
  { nextId := 1
    transitions := [c3DemoET]
    objectTransitions := [(5, 0)]
    propertyTransitions := [("value", 0)]
    clockFrames := [0]
    propVal := fun _ _ => EValue.num 1
    detachedLog := []
    destroyedLog := [] }

/-- The state and leftover fuel after delivering the pending end
notification. -/
def c3DemoRun : ElemState × Nat :=
  match elemRun 8 c3DemoState
    [ElemTask.eventsT c3DemoET [TransitionEvent.ended 0]] with
  | some pr => pr
  | Option.none => (c3DemoState, 0)

/-! ## Theorems -/

/-- Helper: `updateCurrentValue` on a transition whose fraction is 1 ends the
transition and fires one update and then one end notification. -/
theorem Transition.updateCurrentValue_of_fraction_one (t : Transition)
    (h : t.fraction = 1) :
    t.updateCurrentValue =
      ({ t with currentValue := t.interpolatedValue, isEnded := true },
       [TransitionEvent.updated t.interpolatedValue,
        TransitionEvent.ended t.interpolatedValue]) := by
  unfold Transition.updateCurrentValue
  rw [if_pos h]

/-- Helper: `updateCurrentValue` below fraction 1 only updates the value. -/
theorem Transition.updateCurrentValue_of_fraction_ne (t : Transition)
    (h : ¬ t.fraction = 1) :
    t.updateCurrentValue =
      ({ t with currentValue := t.interpolatedValue },
       [TransitionEvent.updated t.interpolatedValue]) := by
  unfold Transition.updateCurrentValue
  rw [if_neg h]

/-- Helper: `cancel` on a non-running transition is a no-op; on a running one
with `snapToEnd` it ends it, snaps the value and emits update then end. -/
theorem Transition.cancel_cases (t : Transition) :
    (t.isRunning = false → t.cancel true = (t, [])) ∧
    (t.isRunning = true →
      t.cancel true = ({ t with isEnded := true, currentValue := t.endValue },
        [TransitionEvent.updated t.endValue,
         TransitionEvent.ended t.endValue])) := by
  unfold Transition.cancel
  exact ⟨fun h => by simp [h], fun h => by simp [h]⟩

/-- Helper: `cancel` preserves endpoints, timing and started/paused flags, and
never clears the ended flag. -/
theorem Transition.cancel_sig (t : Transition) (b : Bool) :
    (t.cancel b).1.delay = t.delay ∧ (t.cancel b).1.duration = t.duration ∧
    (t.cancel b).1.startValue = t.startValue ∧
    (t.cancel b).1.endValue = t.endValue ∧
    (t.cancel b).1.isStarted = t.isStarted ∧
    (t.cancel b).1.isPaused = t.isPaused ∧
    (t.isEnded = true → (t.cancel b).1.isEnded = true) := by
  unfold Transition.cancel
  cases hr : t.isRunning
  · simp
  · cases b <;> simp

/-- Helper: a cancel that emits an end notification leaves the transition
ended. -/
theorem Transition.cancel_ended_of_ended_mem (t : Transition) (v : ℚ)
    (h : TransitionEvent.ended v ∈ (t.cancel true).2) :
    (t.cancel true).1.isEnded = true := by
  obtain ⟨hno, hyes⟩ := Transition.cancel_cases t
  cases hr : t.isRunning
  · rw [hno hr] at h
    simp at h
  · rw [hyes hr]

/-- Helper: starting a freshly created transition succeeds, leaves it started
and unpaused with unchanged parameters, and emits an end notification exactly
when it ends synchronously. -/
theorem Transition.start_fresh_spec (t : Transition) (hS : t.isStarted = false)
    (hP : t.isPaused = false) (hE : t.isEnded = false) :
    ∃ t' evs, t.start = .ok (t', evs) ∧
      t'.isStarted = true ∧ t'.isPaused = false ∧
      t'.delay = t.delay ∧ t'.duration = t.duration ∧
      t'.startValue = t.startValue ∧ t'.endValue = t.endValue ∧
      ((∃ v, TransitionEvent.ended v ∈ evs) ↔ t'.isEnded = true) := by
  have hstart : t.start =
      .ok ((Transition.updateCurrentValue { t with isStarted := true }).1,
        TransitionEvent.started t.currentValue ::
          (Transition.updateCurrentValue { t with isStarted := true }).2) := by
    unfold Transition.start
    rw [hE, hS]
    rfl
  refine ⟨_, _, hstart, ?_⟩
  by_cases hf : ({ t with isStarted := true } : Transition).fraction = 1
  · rw [Transition.updateCurrentValue_of_fraction_one _ hf]
    simp [hP]
  · rw [Transition.updateCurrentValue_of_fraction_ne _ hf]
    simp [hP, hE]

/-- Helper: `setTr` preserves the identity list. -/
theorem ElemState.setTr_ids (s : ElemState) (tid : Nat) (tr : Transition) :
    (s.setTr tid tr).transitions.map (fun t => t.id) =
      s.transitions.map (fun t => t.id) := by
  simp only [ElemState.setTr, List.map_map]
  refine List.map_congr_left ?_
  intro t _
  by_cases h : t.id = tid <;> simp [h]

/-- Helper: a successful `findTrans` returns a member with the identity. -/
theorem ElemState.findTrans_mem {s : ElemState} {tid : Nat} {et : ETrans}
    (h : s.findTrans tid = some et) : et ∈ s.transitions ∧ et.id = tid := by
  unfold ElemState.findTrans at h
  exact ⟨List.mem_of_find?_eq_some h, by simpa using List.find?_some h⟩

/-- Helper: a failed `findTrans` means the identity is unknown. -/
theorem ElemState.findTrans_none {s : ElemState} {tid : Nat}
    (h : s.findTrans tid = Option.none) : ∀ t ∈ s.transitions, t.id ≠ tid := by
  unfold ElemState.findTrans at h
  intro t ht
  simpa using List.find?_eq_none.mp h t ht

/-- Helper: with unique identities equal identities mean equal transitions. -/
theorem nodup_id_inj {s : ElemState}
    (hN : (s.transitions.map (fun t => t.id)).Nodup)
    {t1 t2 : ETrans} (h1 : t1 ∈ s.transitions) (h2 : t2 ∈ s.transitions)
    (h : t1.id = t2.id) : t1 = t2 :=
  List.inj_on_of_nodup_map hN h1 h2 h

/-- Helper: within `setTr` with the result of cancelling the found transition,
the preserved signature of every transition is unchanged. -/
theorem ElemState.setTr_sig_of_cancel (s : ElemState) (tid : Nat) (et : ETrans)
    (hN : (s.transitions.map (fun t => t.id)).Nodup)
    (hf : s.findTrans tid = some et) :
    (s.setTr tid (et.tr.cancel true).1).transitions.map sigOf =
      s.transitions.map sigOf := by
  obtain ⟨hmem, hid⟩ := ElemState.findTrans_mem hf
  simp only [ElemState.setTr, List.map_map]
  refine List.map_congr_left ?_
  intro t ht
  by_cases h : (t.id == tid) = true
  · have htid : t.id = tid := by simpa using h
    have ht2 : t = et := nodup_id_inj hN ht hmem (htid.trans hid.symm)
    subst ht2
    obtain ⟨d1, d2, d3, d4, d5, d6, _⟩ := Transition.cancel_sig t.tr true
    simp [Function.comp, h, sigOf, d1, d2, d3, d4, d5, d6]
  · simp [Function.comp, h]

/-- C1: evaluation of the code at the claim's scenario.  Two figure slots with
non-empty values and no declared positions get 0-based ordinals 0 and 1 among 2
visible figures, and both get the figure default transition duration 500; but
`ImageElementResolvedProperties.resolve` computes the default `positionX` as
`figureIndex / (figureCount + 1) * screenWidth` with the 0-based ordinal, which
yields `0` and `screenWidth / 3` — not `screenWidth * 1/3` and
`screenWidth * 2/3` as the claim states. -/
theorem c1_figure_default_position_eval (W H iw ih : ℚ) (hW : W ≠ 0) :
    viewComputeOrdinals c1Elements =
      .ok ([("figure1", 0), ("figure2", 1)], [(ElementType.figure, 2)]) ∧
    resolveElementTransitionDuration
      (c1FigureProperties "a.png" 1).toBaseElementProperties 1 = .ok 500 ∧
    resolveElementTransitionDuration
      (c1FigureProperties "b.png" 2).toBaseElementProperties 1 = .ok 500 ∧
    (ImageElementResolvedProperties.resolve (c1FigureProperties "a.png" 1)
      (c1Options W H iw ih 0 2)).map (fun r => r.positionX) = .ok 0 ∧
    (ImageElementResolvedProperties.resolve (c1FigureProperties "b.png" 2)
      (c1Options W H iw ih 1 2)).map (fun r => r.positionX) = .ok (W / 3) ∧
    (0 : ℚ) ≠ W * (1 / 3) ∧ W / 3 ≠ W * (2 / 3) := by
  refine ⟨rfl, rfl, rfl, ?_, ?_, ?_, ?_⟩
  · simp [ImageElementResolvedProperties.resolve, c1FigureProperties, c1Options,
      resolvePropertyValue, Except.map, Bind.bind, Except.bind, Pure.pure,
      Except.pure]
  · simp [ImageElementResolvedProperties.resolve, c1FigureProperties, c1Options,
      resolvePropertyValue, Except.map, Bind.bind, Except.bind, Pure.pure,
      Except.pure]
    ring_nf
  · intro h
    rcases mul_eq_zero.mp h.symm with h' | h'
    · exact hW h'
    · norm_num at h'
  · intro h
    apply hW
    field_simp at h

/-- Witness for C1 at concrete screen and image dimensions. -/
theorem c1_figure_default_position_eval_witness :
    (ImageElementResolvedProperties.resolve (c1FigureProperties "a.png" 1)
      (c1Options 1920 1080 300 600 0 2)).map (fun r => r.positionX) = .ok 0 ∧
    (ImageElementResolvedProperties.resolve (c1FigureProperties "b.png" 2)
      (c1Options 1920 1080 300 600 1 2)).map (fun r => r.positionX) =
        .ok (1920 / 3) :=
  ⟨(c1_figure_default_position_eval 1920 1080 300 600 (by decide)).2.2.2.1,
   (c1_figure_default_position_eval 1920 1080 300 600 (by decide)).2.2.2.2.1⟩

/-- Helper: running tasks never creates transitions, never adds registrations,
and never changes a transition's identity, object, property, endpoints, timing
or started/paused flags. -/
theorem elemRun_frame : ∀ (fuel : Nat) (s : ElemState) (tasks : List ElemTask)
    (s' : ElemState) (f' : Nat), elemRun fuel s tasks = some (s', f') →
    (s.transitions.map (fun t => t.id)).Nodup →
    s'.nextId = s.nextId ∧
    s'.transitions.map sigOf = s.transitions.map sigOf ∧
    (∀ i ∈ s'.clockFrames, i ∈ s.clockFrames) ∧
    (∀ q ∈ s'.objectTransitions, q ∈ s.objectTransitions) ∧
    (∀ q ∈ s'.propertyTransitions, q ∈ s.propertyTransitions) := by
  intro fuel
  induction fuel with
  | zero =>
    intro s tasks s' f' h hN
    cases tasks with
    | nil =>
      simp only [elemRun, Option.some.injEq, Prod.mk.injEq] at h
      rcases h with ⟨h1, _⟩
      subst h1
      exact ⟨rfl, rfl, fun _ hh => hh, fun _ hh => hh, fun _ hh => hh⟩
    | cons task rest => simp [elemRun] at h
  | succ fuel ih =>
    intro s tasks s' f' h hN
    cases tasks with
    | nil =>
      simp only [elemRun, Option.some.injEq, Prod.mk.injEq] at h
      rcases h with ⟨h1, _⟩
      subst h1
      exact ⟨rfl, rfl, fun _ hh => hh, fun _ hh => hh, fun _ hh => hh⟩
    | cons task rest =>
      cases task with
      | cancelT tid =>
        rw [elemRun] at h
        cases hf : s.findTrans tid with
        | none =>
          rw [hf] at h
          exact ih s rest s' f' h hN
        | some et =>
          rw [hf] at h
          have hids := ElemState.setTr_ids s tid (et.tr.cancel true).1
          have hN2 : (((s.setTr tid (et.tr.cancel true).1).transitions).map
              (fun t => t.id)).Nodup := by
            rw [hids]; exact hN
          obtain ⟨g1, g2, g3, g4, g5⟩ := ih _ _ _ _ h hN2
          refine ⟨g1, ?_, g3, g4, g5⟩
          rw [g2]
          exact ElemState.setTr_sig_of_cancel s tid et hN hf
      | eventsT et evs =>
        cases evs with
        | nil =>
          rw [elemRun] at h
          exact ih _ _ _ _ h hN
        | cons ev evs =>
          cases ev with
          | updated v =>
            rw [elemRun] at h
            exact ih (s.writeProp et.object et.propertyName (EValue.num v))
              _ s' f' h hN
          | ended v =>
            rw [elemRun] at h
            by_cases hc : et.propertyName = "value" ∧ et.tr.endValue = 0
            · rw [if_pos hc] at h
              obtain ⟨g1, g2, g3, g4, g5⟩ := ih _ _ _ _ h hN
              refine ⟨g1, g2, fun i hi => ?_, fun q hq => ?_, fun q hq => ?_⟩
              · exact List.mem_of_mem_filter (g3 i hi)
              · exact List.mem_of_mem_filter (g4 q hq)
              · exact List.mem_of_mem_filter (g5 q hq)
            · rw [if_neg hc] at h
              obtain ⟨g1, g2, g3, g4, g5⟩ := ih _ _ _ _ h hN
              refine ⟨g1, g2, fun i hi => ?_, fun q hq => ?_, fun q hq => ?_⟩
              · exact List.mem_of_mem_filter (g3 i hi)
              · exact List.mem_of_mem_filter (g4 q hq)
              · exact List.mem_of_mem_filter (g5 q hq)
          | started v =>
            simp only [elemRun] at h
            exact ih _ _ _ _ h hN
          | paused v =>
            simp only [elemRun] at h
            exact ih _ _ _ _ h hN
          | resumed v =>
            simp only [elemRun] at h
            exact ih _ _ _ _ h hN
      | destroyT o =>
        rw [elemRun] at h
        exact ih { s with detachedLog := s.detachedLog ++ [o]
                          destroyedLog := s.destroyedLog ++ [o] } _ s' f' h hN

/-- Helper: running concatenated task lists composes, threading the leftover
fuel (stack discipline: all work spawned by the first list completes before
the second list starts). -/
theorem elemRun_append : ∀ (fuel : Nat) (s : ElemState) (as bs : List ElemTask),
    elemRun fuel s (as ++ bs) =
      (elemRun fuel s as).bind (fun p => elemRun p.2 p.1 bs) := by
  intro fuel
  induction fuel with
  | zero =>
    intro s as bs
    cases as with
    | nil => simp [elemRun]
    | cons task rest => simp [elemRun]
  | succ fuel ih =>
    intro s as bs
    cases as with
    | nil => simp [elemRun]
    | cons task rest =>
      cases task with
      | cancelT tid =>
        simp only [List.cons_append, List.append_eq, elemRun]
        cases hf : s.findTrans tid with
        | none => exact ih s rest bs
        | some et =>
          dsimp only
          rw [← List.cons_append]
          exact ih _ _ bs
      | eventsT et evs =>
        cases evs with
        | nil =>
          simp only [List.cons_append, List.append_eq, elemRun]
          exact ih s rest bs
        | cons ev evs =>
          cases ev with
          | updated v =>
            simp only [List.cons_append, List.append_eq, elemRun]
            rw [← List.cons_append]
            exact ih _ _ bs
          | ended v =>
            simp only [List.cons_append, List.append_eq, elemRun]
            by_cases hc : et.propertyName = "value" ∧ et.tr.endValue = 0
            · rw [if_pos hc, if_pos hc]
              rw [← List.cons_append, ← List.cons_append, ← List.append_assoc]
              exact ih _ _ bs
            · rw [if_neg hc, if_neg hc]
              rw [← List.cons_append]
              exact ih _ _ bs
          | started v =>
            simp only [elemRun, List.cons_append, List.append_eq]
            rw [← List.cons_append]
            exact ih _ _ bs
          | paused v =>
            simp only [elemRun, List.cons_append, List.append_eq]
            rw [← List.cons_append]
            exact ih _ _ bs
          | resumed v =>
            simp only [elemRun, List.cons_append, List.append_eq]
            rw [← List.cons_append]
            exact ih _ _ bs
      | destroyT o =>
        simp only [List.cons_append, List.append_eq, elemRun]
        exact ih _ rest bs

/-- Helper: membership in the transition list after `setTr`. -/
theorem ElemState.setTr_mem {s : ElemState} {tid : Nat} {tr : Transition}
    {t' : ETrans} (ht' : t' ∈ (s.setTr tid tr).transitions) :
    ∃ u ∈ s.transitions, t'.id = u.id ∧ t'.object = u.object ∧
      t'.propertyName = u.propertyName ∧
      ((u.id ≠ tid ∧ t'.tr = u.tr) ∨ (u.id = tid ∧ t'.tr = tr)) := by
  rcases List.mem_map.mp ht' with ⟨u, hu, huf⟩
  by_cases h : u.id = tid
  · refine ⟨u, hu, ?_⟩
    rw [← huf]
    simp [h]
  · refine ⟨u, hu, ?_⟩
    rw [← huf]
    simp [h]

/-- Helper: forward membership into the transition list after `setTr`. -/
theorem ElemState.setTr_mem_fwd {s : ElemState} (tid : Nat) (tr : Transition)
    {u : ETrans} (hu : u ∈ s.transitions) :
    ∃ t' ∈ (s.setTr tid tr).transitions, t'.id = u.id ∧ t'.object = u.object ∧
      t'.propertyName = u.propertyName := by
  refine ⟨(if (u.id == tid) = true then { u with tr := tr } else u),
    List.mem_map_of_mem _ hu, ?_⟩
  by_cases h : (u.id == tid) = true <;> simp [h]

/-- Helper: `setTr` preserves structural well-formedness when the replacement
transition value is started and unpaused and keeps the registered-or-ended
discipline. -/
theorem ElemWF.setTr_pres (s : ElemState) (tid : Nat) (tr : Transition)
    (hwf : ElemWF s) (hsu : tr.isStarted = true ∧ tr.isPaused = false)
    (hre : ∀ u ∈ s.transitions, u.id = tid →
      (u.id ∈ s.clockFrames ∨ tr.isEnded = true)) :
    ElemWF (s.setTr tid tr) := by
  constructor
  · intro t' ht'
    obtain ⟨u, hu, hi, _, _, _⟩ := ElemState.setTr_mem ht'
    rw [hi]
    exact hwf.idBound u hu
  · rw [ElemState.setTr_ids]
    exact hwf.idNodup
  · intro i hi
    obtain ⟨u, hu, hui⟩ := hwf.clockLive i hi
    obtain ⟨t', ht', h1, _, _⟩ := ElemState.setTr_mem_fwd tid tr hu
    exact ⟨t', ht', h1.trans hui⟩
  · intro q hq
    obtain ⟨u, hu, hui, huo⟩ := hwf.objLive q hq
    obtain ⟨t', ht', h1, h2, _⟩ := ElemState.setTr_mem_fwd tid tr hu
    exact ⟨t', ht', h1.trans hui, h2.trans huo⟩
  · intro q hq
    obtain ⟨u, hu, hui, hup⟩ := hwf.propLive q hq
    obtain ⟨t', ht', h1, _, h3⟩ := ElemState.setTr_mem_fwd tid tr hu
    exact ⟨t', ht', h1.trans hui, h3.trans hup⟩
  · intro t' ht'
    obtain ⟨u, hu, hi, ho, _, _⟩ := ElemState.setTr_mem ht'
    rw [hi, ho]
    exact hwf.syncObj u hu
  · intro t' ht'
    obtain ⟨u, hu, hi, _, hp, _⟩ := ElemState.setTr_mem ht'
    rw [hi, hp]
    exact hwf.syncProp u hu
  · intro t1 ht1 t2 ht2 hc1 hc2 ho hp
    obtain ⟨u1, hu1, hi1, ho1, hp1, _⟩ := ElemState.setTr_mem ht1
    obtain ⟨u2, hu2, hi2, ho2, hp2, _⟩ := ElemState.setTr_mem ht2
    rw [hi1, hi2]
    exact hwf.unique u1 hu1 u2 hu2 (hi1 ▸ hc1) (hi2 ▸ hc2)
      (by rw [← ho1, ← ho2]; exact ho) (by rw [← hp1, ← hp2]; exact hp)
  · intro t' ht'
    obtain ⟨u, hu, _, _, _, htr⟩ := ElemState.setTr_mem ht'
    rcases htr with ⟨_, htr⟩ | ⟨_, htr⟩
    · rw [htr]
      exact hwf.startedUnpaused u hu
    · rw [htr]
      exact hsu
  · intro t' ht'
    obtain ⟨u, hu, hi, _, _, htr⟩ := ElemState.setTr_mem ht'
    rcases htr with ⟨_, htr⟩ | ⟨hut, htr⟩
    · rw [hi, htr]
      exact hwf.regOrEnded u hu
    · rw [hi, htr]
      exact hre u hu hut

/-- Helper: the end-callback removals preserve structural well-formedness when
the events snapshot matches its live transition and that transition has
ended. -/
theorem ElemWF.removeRegs_pres (s : ElemState) (et : ETrans) (hwf : ElemWF s)
    (hmatch : ∃ t ∈ s.transitions, t.id = et.id ∧ t.object = et.object ∧
      t.propertyName = et.propertyName)
    (hended : ∀ t ∈ s.transitions, t.id = et.id → t.tr.isEnded = true) :
    ElemWF (s.removeRegs et) := by
  obtain ⟨tm, htm, htmi, htmo, htmp⟩ := hmatch
  constructor
  · exact hwf.idBound
  · exact hwf.idNodup
  · intro i hi
    exact hwf.clockLive i (List.mem_of_mem_filter hi)
  · intro q hq
    exact hwf.objLive q (List.mem_of_mem_filter hq)
  · intro q hq
    exact hwf.propLive q (List.mem_of_mem_filter hq)
  · intro t ht
    by_cases hte : t.id = et.id
    · have hteq : t = tm := nodup_id_inj hwf.idNodup ht htm (hte.trans htmi.symm)
      constructor
      · intro hc
        exact absurd (List.mem_filter.mp hc).2 (by simp [hte])
      · intro ho
        have h2 := (List.mem_filter.mp ho).2
        simp [hteq, htmo] at h2
        exact (h2 (hteq ▸ hte)).elim
    · constructor
      · intro hc
        have h1 := List.mem_filter.mp hc
        have h2 := (hwf.syncObj t ht).mp h1.1
        exact List.mem_filter.mpr ⟨h2, by simp [hte]⟩
      · intro ho
        have h1 := List.mem_filter.mp ho
        have h2 := (hwf.syncObj t ht).mpr h1.1
        exact List.mem_filter.mpr ⟨h2, by simp [hte]⟩
  · intro t ht
    by_cases hte : t.id = et.id
    · have hteq : t = tm := nodup_id_inj hwf.idNodup ht htm (hte.trans htmi.symm)
      constructor
      · intro hc
        exact absurd (List.mem_filter.mp hc).2 (by simp [hte])
      · intro hp
        have h2 := (List.mem_filter.mp hp).2
        simp [hteq, htmp] at h2
        exact (h2 (hteq ▸ hte)).elim
    · constructor
      · intro hc
        have h1 := List.mem_filter.mp hc
        have h2 := (hwf.syncProp t ht).mp h1.1
        exact List.mem_filter.mpr ⟨h2, by simp [hte]⟩
      · intro hp
        have h1 := List.mem_filter.mp hp
        have h2 := (hwf.syncProp t ht).mpr h1.1
        exact List.mem_filter.mpr ⟨h2, by simp [hte]⟩
  · intro t1 ht1 t2 ht2 hc1 hc2 ho hp
    exact hwf.unique t1 ht1 t2 ht2 (List.mem_of_mem_filter hc1)
      (List.mem_of_mem_filter hc2) ho hp
  · exact hwf.startedUnpaused
  · intro t ht
    by_cases hte : t.id = et.id
    · exact Or.inr (hended t ht hte)
    · rcases hwf.regOrEnded t ht with hreg | hend
      · exact Or.inl (List.mem_filter.mpr ⟨hreg, by simp [hte]⟩)
      · exact Or.inr hend

/-- Helper: pending end notifications are monotone in the task list. -/
theorem pendingEndEvents_mono {tasks tasks' : List ElemTask} {tid : Nat}
    (hsub : ∀ task ∈ tasks, task ∈ tasks') (h : PendingEndEvents tasks tid) :
    PendingEndEvents tasks' tid := by
  obtain ⟨et, evs, hm, hi, v, hv⟩ := h
  exact ⟨et, evs, hsub _ hm, hi, v, hv⟩

/-- Helper: pending deregistrations are monotone in the task list. -/
theorem pendingEnd_mono {tasks tasks' : List ElemTask} {tid : Nat}
    (hsub : ∀ task ∈ tasks, task ∈ tasks') (h : PendingEnd tasks tid) :
    PendingEnd tasks' tid := by
  rcases h with hc | he
  · exact Or.inl (hsub _ hc)
  · exact Or.inr (pendingEndEvents_mono hsub he)

/-- Helper: equal signatures give equal key fields. -/
theorem sigOf_fields {t' u : ETrans} (h : sigOf t' = sigOf u) :
    t'.id = u.id ∧ t'.object = u.object ∧ t'.propertyName = u.propertyName ∧
      t'.tr.endValue = u.tr.endValue := by
  simp only [sigOf, Prod.mk.injEq] at h
  exact ⟨h.1, h.2.1, h.2.2.1, h.2.2.2.2.2.2.1⟩

/-- Helper: the cancel step of `elemRun` preserves the machine invariant. -/
theorem elemInv_cancel_step (s : ElemState) (tid : Nat) (et : ETrans)
    (rest : List ElemTask) (hf : s.findTrans tid = some et)
    (inv : ElemInv s (ElemTask.cancelT tid :: rest)) :
    ElemInv (s.setTr tid (et.tr.cancel true).1)
      (ElemTask.eventsT { et with tr := (et.tr.cancel true).1 }
        (et.tr.cancel true).2 :: rest) := by
  obtain ⟨hmem, hid⟩ := ElemState.findTrans_mem hf
  have hN := inv.wf.idNodup
  obtain ⟨hst, hpa⟩ := inv.wf.startedUnpaused et hmem
  obtain ⟨d1, d2, d3, d4, d5, d6, d7⟩ := Transition.cancel_sig et.tr true
  have hwf2 : ElemWF (s.setTr tid (et.tr.cancel true).1) := by
    refine ElemWF.setTr_pres s tid _ inv.wf
      ⟨by rw [d5]; exact hst, by rw [d6]; exact hpa⟩ ?_
    intro u hu hut
    have hue : u = et := nodup_id_inj hN hu hmem (hut.trans hid.symm)
    rcases inv.wf.regOrEnded u hu with hreg | hend
    · exact Or.inl hreg
    · exact Or.inr (d7 (hue ▸ hend))
  have hfet : ({ et with tr := (et.tr.cancel true).1 } : ETrans) ∈
      (s.setTr tid (et.tr.cancel true).1).transitions := by
    have h0 := List.mem_map_of_mem (fun t : ETrans =>
      if t.id == tid then { t with tr := (et.tr.cancel true).1 } else t) hmem
    simpa [ElemState.setTr, hid] using h0
  have hsig := ElemState.setTr_sig_of_cancel s tid et hN hf
  have hfwd : ∀ u ∈ s.transitions,
      ∃ t' ∈ (s.setTr tid (et.tr.cancel true).1).transitions,
        sigOf t' = sigOf u := by
    intro u hu
    have h0 : sigOf u ∈
        ((s.setTr tid (et.tr.cancel true).1).transitions).map sigOf := by
      rw [hsig]
      exact List.mem_map_of_mem sigOf hu
    rcases List.mem_map.mp h0 with ⟨t', ht', he⟩
    exact ⟨t', ht', he⟩
  refine ⟨hwf2, ?_, ?_⟩
  · intro etx evsx hmemx
    rcases List.mem_cons.mp hmemx with hhd | hrest
    · injection hhd with h1 h2
      subst h1
      subst h2
      refine ⟨⟨{ et with tr := (et.tr.cancel true).1 }, hfet,
        rfl, rfl, rfl, rfl⟩, ?_⟩
      rintro ⟨v, hv⟩ t ht htid
      obtain ⟨u, hu, hui, _, _, htr⟩ := ElemState.setTr_mem ht
      rcases htr with ⟨hne, _⟩ | ⟨_, htr⟩
      · exact absurd ((hui.symm.trans htid).trans hid) hne
      · rw [htr]
        exact Transition.cancel_ended_of_ended_mem et.tr v hv
    · obtain ⟨⟨t, ht, f1, f2, f3, f4⟩, hp2⟩ :=
        inv.tasksWF etx evsx (List.mem_cons_of_mem _ hrest)
      obtain ⟨t', ht', hsige⟩ := hfwd t ht
      obtain ⟨e1, e2, e3, e4⟩ := sigOf_fields hsige
      refine ⟨⟨t', ht', e1.trans f1, e2.trans f2, e3.trans f3, e4.trans f4⟩, ?_⟩
      intro hex t' ht' htid'
      obtain ⟨u, hu, hui, _, _, htr⟩ := ElemState.setTr_mem ht'
      have hue : u.tr.isEnded = true := hp2 hex u hu (hui.symm.trans htid')
      rcases htr with ⟨_, htr⟩ | ⟨hut, htr⟩
      · rw [htr]
        exact hue
      · rw [htr]
        have hue2 : u = et := nodup_id_inj hN hu hmem (hut.trans hid.symm)
        exact d7 (hue2 ▸ hue)
  · intro t ht hreg
    have hregs : t.id ∈ s.clockFrames := hreg
    obtain ⟨u, hu, hui, _, _, htr⟩ := ElemState.setTr_mem ht
    have htx : PendingEndEvents (ElemTask.cancelT tid :: rest) u.id →
        PendingEndEvents (ElemTask.eventsT
          { et with tr := (et.tr.cancel true).1 }
          (et.tr.cancel true).2 :: rest) u.id := by
      rintro ⟨eta, evsa, hma, hia, v, hv⟩
      rcases List.mem_cons.mp hma with hh | hr
      · exact ElemTask.noConfusion hh
      · exact ⟨eta, evsa, List.mem_cons_of_mem _ hr, hia, v, hv⟩
    rcases htr with ⟨hne, htr⟩ | ⟨hut, htr⟩
    · rcases inv.runningOrPending u hu (hui ▸ hregs) with hr | hp
      · left
        rw [htr]
        exact hr
      · right
        rw [hui]
        exact htx hp
    · have hue : u = et := nodup_id_inj hN hu hmem (hut.trans hid.symm)
      cases hrun : et.tr.isRunning with
      | true =>
        obtain ⟨_, hyes⟩ := Transition.cancel_cases et.tr
        right
        refine ⟨{ et with tr := (et.tr.cancel true).1 }, (et.tr.cancel true).2,
          List.mem_cons_self _ _, ?_, et.tr.endValue, ?_⟩
        · exact (hui.trans (show u.id = et.id by rw [hue])).symm
        · rw [hyes hrun]
          simp
      | false =>
        rcases inv.runningOrPending u hu (hui ▸ hregs) with hr | hp
        · have hcontra : et.tr.isRunning = true := hue ▸ hr
          rw [hrun] at hcontra
          cases hcontra
        · right
          rw [hui]
          exact htx hp

/-- Helper: the end-callback removals (without the value-to-zero cascade)
preserve the machine invariant. -/
theorem elemInv_ended_step (s : ElemState) (et : ETrans) (v : ℚ)
    (evs : List TransitionEvent) (rest : List ElemTask)
    (inv : ElemInv s
      (ElemTask.eventsT et (TransitionEvent.ended v :: evs) :: rest)) :
    ElemInv (s.removeRegs et) (ElemTask.eventsT et evs :: rest) := by
  obtain ⟨⟨tm, htm, e1, e2, e3, e4⟩, hp2⟩ := inv.tasksWF et
    (TransitionEvent.ended v :: evs) (List.mem_cons_self _ _)
  have hended : ∀ t ∈ s.transitions, t.id = et.id → t.tr.isEnded = true :=
    hp2 ⟨v, List.mem_cons_self _ _⟩
  have hwf2 : ElemWF (s.removeRegs et) :=
    ElemWF.removeRegs_pres s et inv.wf ⟨tm, htm, e1, e2, e3⟩ hended
  refine ⟨hwf2, ?_, ?_⟩
  · intro etx evsx hm
    rcases List.mem_cons.mp hm with hh | hr
    · injection hh with h1 h2
      subst h1
      subst h2
      refine ⟨⟨tm, htm, e1, e2, e3, e4⟩, ?_⟩
      rintro ⟨v', _⟩ t ht hti
      exact hended t ht hti
    · obtain ⟨⟨t, ht, f1, f2, f3, f4⟩, g2⟩ :=
        inv.tasksWF etx evsx (List.mem_cons_of_mem _ hr)
      exact ⟨⟨t, ht, f1, f2, f3, f4⟩, fun hex t' ht' hti => g2 hex t' ht' hti⟩
  · intro t ht hreg
    have hregf := List.mem_filter.mp hreg
    have hne : t.id ≠ et.id := by simpa using hregf.2
    rcases inv.runningOrPending t ht hregf.1 with hr | hp
    · exact Or.inl hr
    · obtain ⟨eta, evsa, hma, hia, v', hv'⟩ := hp
      rcases List.mem_cons.mp hma with hh | hrr
      · injection hh with h1 h2
        subst h1
        exact absurd hia.symm hne
      · exact Or.inr ⟨eta, evsa, List.mem_cons_of_mem _ hrr, hia, v', hv'⟩

/-- Helper: the end-callback removals with the value-to-zero cascade preserve
the machine invariant: the pushed cancels and the destroy task do not carry
events, so task well-formedness and pendings transfer unchanged. -/
theorem elemInv_ended_cascade_step (s : ElemState) (et : ETrans) (v : ℚ)
    (evs : List TransitionEvent) (rest : List ElemTask)
    (inv : ElemInv s
      (ElemTask.eventsT et (TransitionEvent.ended v :: evs) :: rest)) :
    ElemInv (s.removeRegs et)
      ((((s.removeRegs et).objectTransitions.filter
          (fun q => q.1 == et.object)).map (fun q => ElemTask.cancelT q.2)) ++
        ElemTask.destroyT et.object ::
          ElemTask.eventsT et evs :: rest) := by
  have core := elemInv_ended_step s et v evs rest inv
  refine ⟨core.wf, ?_, ?_⟩
  · intro etx evsx hm
    rcases List.mem_append.mp hm with hl | hr
    · rcases List.mem_map.mp hl with ⟨q, _, hq⟩
      exact ElemTask.noConfusion hq
    · rcases List.mem_cons.mp hr with hh | hrr
      · exact ElemTask.noConfusion hh
      · exact core.tasksWF etx evsx hrr
  · intro t ht hreg
    rcases core.runningOrPending t ht hreg with h | h
    · exact Or.inl h
    · refine Or.inr (pendingEndEvents_mono ?_ h)
      intro task htask
      exact List.mem_append_right _ (List.mem_cons_of_mem _ htask)

/-- Helper: delivering one non-end notification preserves the invariant (the
state may change only in fields the invariant does not mention). -/
theorem elemInv_nonend_step (s s₂ : ElemState) (et : ETrans)
    (ev : TransitionEvent) (evs : List TransitionEvent) (rest : List ElemTask)
    (hnotend : ∀ v, ev ≠ TransitionEvent.ended v)
    (htr : s₂.transitions = s.transitions)
    (hck : s₂.clockFrames = s.clockFrames)
    (hob : s₂.objectTransitions = s.objectTransitions)
    (hpr : s₂.propertyTransitions = s.propertyTransitions)
    (hni : s₂.nextId = s.nextId)
    (inv : ElemInv s (ElemTask.eventsT et (ev :: evs) :: rest)) :
    ElemInv s₂ (ElemTask.eventsT et evs :: rest) := by
  have hwf2 : ElemWF s₂ := by
    constructor
    · rw [htr, hni]
      exact inv.wf.idBound
    · rw [htr]
      exact inv.wf.idNodup
    · rw [htr, hck]
      exact inv.wf.clockLive
    · rw [htr, hob]
      exact inv.wf.objLive
    · rw [htr, hpr]
      exact inv.wf.propLive
    · rw [htr, hck, hob]
      exact inv.wf.syncObj
    · rw [htr, hck, hpr]
      exact inv.wf.syncProp
    · rw [htr, hck]
      exact inv.wf.unique
    · rw [htr]
      exact inv.wf.startedUnpaused
    · rw [htr, hck]
      exact inv.wf.regOrEnded
  refine ⟨hwf2, ?_, ?_⟩
  · intro etx evsx hm
    rw [htr]
    rcases List.mem_cons.mp hm with hh | hr
    · injection hh with h1 h2
      rw [h1, h2]
      obtain ⟨g1, g2⟩ :=
        inv.tasksWF et (ev :: evs) (List.mem_cons_self _ _)
      exact ⟨g1, fun hex =>
        g2 ⟨hex.choose, List.mem_cons_of_mem _ hex.choose_spec⟩⟩
    · exact inv.tasksWF etx evsx (List.mem_cons_of_mem _ hr)
  · intro t ht hreg
    rw [htr] at ht
    rw [hck] at hreg
    rcases inv.runningOrPending t ht hreg with hr | hp
    · exact Or.inl hr
    · obtain ⟨eta, evsa, hma, hia, v', hv'⟩ := hp
      rcases List.mem_cons.mp hma with hh | hrr
      · injection hh with h1 h2
        rw [h1] at hia
        rw [h2] at hv'
        rcases List.mem_cons.mp hv' with hveq | hvm
        · exact absurd hveq.symm (hnotend v')
        · exact Or.inr ⟨et, evs, List.mem_cons_self _ _, hia, v', hvm⟩
      · exact Or.inr ⟨eta, evsa, List.mem_cons_of_mem _ hrr, hia, v', hv'⟩

/-- Helper: a pending deregistration survives the delivery of one non-end
notification. -/
theorem pendingEnd_nonend_transfer (et : ETrans) (ev : TransitionEvent)
    (evs : List TransitionEvent) (rest : List ElemTask) (tid : Nat)
    (hnotend : ∀ v, ev ≠ TransitionEvent.ended v)
    (h : PendingEnd (ElemTask.eventsT et (ev :: evs) :: rest) tid) :
    PendingEnd (ElemTask.eventsT et evs :: rest) tid := by
  rcases h with hc | he
  · rcases List.mem_cons.mp hc with hh | hr
    · exact ElemTask.noConfusion hh
    · exact Or.inl (List.mem_cons_of_mem _ hr)
  · obtain ⟨eta, evsa, hma, hia, v, hv⟩ := he
    rcases List.mem_cons.mp hma with hh | hr
    · injection hh with h1 h2
      rw [h1] at hia
      rw [h2] at hv
      rcases List.mem_cons.mp hv with hveq | hvm
      · exact absurd hveq.symm (hnotend v)
      · exact Or.inr ⟨et, evs, List.mem_cons_self _ _, hia, v, hvm⟩
    · exact Or.inr ⟨eta, evsa, List.mem_cons_of_mem _ hr, hia, v, hv⟩

/-- Helper: after the end-callback removals, a pending deregistration either
survives into the remaining tasks or its identity is already removed from the
clock registry. -/
theorem pendingEnd_ended_transfer (s : ElemState) (et : ETrans) (v0 : ℚ)
    (evs : List TransitionEvent) (rest : List ElemTask) (tid : Nat)
    (h : PendingEnd
      (ElemTask.eventsT et (TransitionEvent.ended v0 :: evs) :: rest) tid) :
    PendingEnd (ElemTask.eventsT et evs :: rest) tid ∨
      tid ∉ (s.removeRegs et).clockFrames := by
  rcases h with hc | he
  · rcases List.mem_cons.mp hc with hh | hr
    · exact ElemTask.noConfusion hh
    · exact Or.inl (Or.inl (List.mem_cons_of_mem _ hr))
  · obtain ⟨eta, evsa, hma, hia, v, hv⟩ := he
    rcases List.mem_cons.mp hma with hh | hr
    · injection hh with h1 h2
      rw [h1] at hia
      rw [h2] at hv
      rcases List.mem_cons.mp hv with hveq | hvm
      · right
        intro hmem
        simp [ElemState.removeRegs, List.mem_filter, hia] at hmem
      · exact Or.inl (Or.inr ⟨et, evs, List.mem_cons_self _ _, hia, v, hvm⟩)
    · exact Or.inl (Or.inr ⟨eta, evsa, List.mem_cons_of_mem _ hr, hia, v, hv⟩)

/-- Helper: running tasks under the machine invariant preserves it with an
empty task list, and every identity with a pending cancel or end notification
ends up deregistered from the clock. -/
theorem elemRun_inv : ∀ (fuel : Nat) (s : ElemState) (tasks : List ElemTask)
    (s' : ElemState) (f' : Nat),
    elemRun fuel s tasks = some (s', f') → ElemInv s tasks →
    ElemInv s' [] ∧ (∀ tid, PendingEnd tasks tid → tid ∉ s'.clockFrames) := by
  intro fuel
  induction fuel with
  | zero =>
    intro s tasks s' f' h inv
    cases tasks with
    | nil =>
      simp only [elemRun, Option.some.injEq, Prod.mk.injEq] at h
      rcases h with ⟨h1, _⟩
      subst h1
      refine ⟨inv, ?_⟩
      intro tid hp
      rcases hp with hc | he
      · exact absurd hc (List.not_mem_nil _)
      · obtain ⟨_, _, hm, _⟩ := he
        exact absurd hm (List.not_mem_nil _)
    | cons task rest => simp [elemRun] at h
  | succ fuel ih =>
    intro s tasks s' f' h inv
    cases tasks with
    | nil =>
      simp only [elemRun, Option.some.injEq, Prod.mk.injEq] at h
      rcases h with ⟨h1, _⟩
      subst h1
      refine ⟨inv, ?_⟩
      intro tid hp
      rcases hp with hc | he
      · exact absurd hc (List.not_mem_nil _)
      · obtain ⟨_, _, hm, _⟩ := he
        exact absurd hm (List.not_mem_nil _)
    | cons task rest =>
      cases task with
      | cancelT tid =>
        rw [elemRun] at h
        cases hf : s.findTrans tid with
        | none =>
          rw [hf] at h
          have inv2 : ElemInv s rest := by
            refine ⟨inv.wf, ?_, ?_⟩
            · intro etx evsx hm
              exact inv.tasksWF etx evsx (List.mem_cons_of_mem _ hm)
            · intro t ht hreg
              rcases inv.runningOrPending t ht hreg with hr | hp
              · exact Or.inl hr
              · obtain ⟨eta, evsa, hma, hia, v, hv⟩ := hp
                rcases List.mem_cons.mp hma with hh | hrr
                · exact ElemTask.noConfusion hh
                · exact Or.inr ⟨eta, evsa, hrr, hia, v, hv⟩
          obtain ⟨hinv, hpend⟩ := ih s rest s' f' h inv2
          refine ⟨hinv, ?_⟩
          intro tid0 hp
          rcases hp with hc | he
          · rcases List.mem_cons.mp hc with hh | hr
            · injection hh with h1
              subst h1
              intro hmem'
              have hsub := (elemRun_frame fuel s rest s' f' h inv.wf.idNodup).2.2.1
              obtain ⟨t, ht, hti⟩ := inv.wf.clockLive _ (hsub _ hmem')
              exact ElemState.findTrans_none hf t ht hti
            · exact hpend tid0 (Or.inl hr)
          · obtain ⟨eta, evsa, hma, hia, v, hv⟩ := he
            rcases List.mem_cons.mp hma with hh | hr
            · exact ElemTask.noConfusion hh
            · exact hpend tid0 (Or.inr ⟨eta, evsa, hr, hia, v, hv⟩)
        | some et =>
          rw [hf] at h
          have inv2 := elemInv_cancel_step s tid et rest hf inv
          obtain ⟨hinv, hpend⟩ := ih _ _ s' f' h inv2
          refine ⟨hinv, ?_⟩
          intro tid0 hp
          rcases hp with hc | he
          · rcases List.mem_cons.mp hc with hh | hr
            · injection hh with h1
              subst h1
              obtain ⟨hmem, hid⟩ := ElemState.findTrans_mem hf
              by_cases hreg : tid0 ∈ s.clockFrames
              · rcases inv.runningOrPending et hmem
                  (by rw [hid]; exact hreg) with hrun | hp2
                · obtain ⟨_, hyes⟩ := Transition.cancel_cases et.tr
                  refine hpend tid0 (Or.inr
                    ⟨{ et with tr := (et.tr.cancel true).1 },
                      (et.tr.cancel true).2, List.mem_cons_self _ _, hid,
                      et.tr.endValue, ?_⟩)
                  rw [hyes hrun]
                  simp
                · obtain ⟨eta, evsa, hma, hia, v, hv⟩ := hp2
                  rcases List.mem_cons.mp hma with hh2 | hr2
                  · exact ElemTask.noConfusion hh2
                  · exact hpend tid0 (Or.inr ⟨eta, evsa,
                      List.mem_cons_of_mem _ hr2, hia.trans hid, v, hv⟩)
              · intro hmem'
                have hsub :=
                  (elemRun_frame fuel _ _ s' f' h inv2.wf.idNodup).2.2.1
                exact hreg (hsub _ hmem')
            · exact hpend tid0 (Or.inl (List.mem_cons_of_mem _ hr))
          · obtain ⟨eta, evsa, hma, hia, v, hv⟩ := he
            rcases List.mem_cons.mp hma with hh | hr
            · exact ElemTask.noConfusion hh
            · exact hpend tid0 (Or.inr
                ⟨eta, evsa, List.mem_cons_of_mem _ hr, hia, v, hv⟩)
      | eventsT et evs =>
        cases evs with
        | nil =>
          rw [elemRun] at h
          have inv2 : ElemInv s rest := by
            refine ⟨inv.wf, ?_, ?_⟩
            · intro etx evsx hm
              exact inv.tasksWF etx evsx (List.mem_cons_of_mem _ hm)
            · intro t ht hreg
              rcases inv.runningOrPending t ht hreg with hr | hp
              · exact Or.inl hr
              · obtain ⟨eta, evsa, hma, hia, v, hv⟩ := hp
                rcases List.mem_cons.mp hma with hh | hrr
                · injection hh with h1 h2
                  rw [h2] at hv
                  exact absurd hv (List.not_mem_nil _)
                · exact Or.inr ⟨eta, evsa, hrr, hia, v, hv⟩
          obtain ⟨hinv, hpend⟩ := ih s rest s' f' h inv2
          refine ⟨hinv, ?_⟩
          intro tid0 hp
          rcases hp with hc | he
          · rcases List.mem_cons.mp hc with hh | hr
            · exact ElemTask.noConfusion hh
            · exact hpend tid0 (Or.inl hr)
          · obtain ⟨eta, evsa, hma, hia, v, hv⟩ := he
            rcases List.mem_cons.mp hma with hh | hr
            · injection hh with h1 h2
              rw [h2] at hv
              exact absurd hv (List.not_mem_nil _)
            · exact hpend tid0 (Or.inr ⟨eta, evsa, hr, hia, v, hv⟩)
        | cons ev evs =>
          cases ev with
          | updated v =>
            rw [elemRun] at h
            have inv2 := elemInv_nonend_step s
              (s.writeProp et.object et.propertyName (EValue.num v)) et
              (TransitionEvent.updated v) evs rest (fun v' => by simp)
              rfl rfl rfl rfl rfl inv
            obtain ⟨hinv, hpend⟩ := ih _ _ s' f' h inv2
            exact ⟨hinv, fun tid0 hp => hpend tid0
              (pendingEnd_nonend_transfer et _ evs rest tid0
                (fun v' => by simp) hp)⟩
          | ended v =>
            rw [elemRun] at h
            by_cases hcz : et.propertyName = "value" ∧ et.tr.endValue = 0
            · rw [if_pos hcz] at h
              have inv2 := elemInv_ended_cascade_step s et v evs rest inv
              obtain ⟨hinv, hpend⟩ := ih _ _ s' f' h inv2
              refine ⟨hinv, ?_⟩
              intro tid0 hp
              rcases pendingEnd_ended_transfer s et v evs rest tid0 hp
                with hp2 | hout
              · refine hpend tid0 (pendingEnd_mono ?_ hp2)
                intro task htask
                exact List.mem_append_right _ (List.mem_cons_of_mem _ htask)
              · intro hmem'
                have hsub :=
                  (elemRun_frame fuel _ _ s' f' h inv2.wf.idNodup).2.2.1
                exact hout (hsub _ hmem')
            · rw [if_neg hcz] at h
              have inv2 := elemInv_ended_step s et v evs rest inv
              obtain ⟨hinv, hpend⟩ := ih _ _ s' f' h inv2
              refine ⟨hinv, ?_⟩
              intro tid0 hp
              rcases pendingEnd_ended_transfer s et v evs rest tid0 hp
                with hp2 | hout
              · exact hpend tid0 hp2
              · intro hmem'
                have hsub :=
                  (elemRun_frame fuel _ _ s' f' h inv2.wf.idNodup).2.2.1
                exact hout (hsub _ hmem')
          | started v =>
            simp only [elemRun] at h
            have inv2 := elemInv_nonend_step s s et (TransitionEvent.started v)
              evs rest (fun v' => by simp) rfl rfl rfl rfl rfl inv
            obtain ⟨hinv, hpend⟩ := ih _ _ s' f' h inv2
            exact ⟨hinv, fun tid0 hp => hpend tid0
              (pendingEnd_nonend_transfer et _ evs rest tid0
                (fun v' => by simp) hp)⟩
          | paused v =>
            simp only [elemRun] at h
            have inv2 := elemInv_nonend_step s s et (TransitionEvent.paused v)
              evs rest (fun v' => by simp) rfl rfl rfl rfl rfl inv
            obtain ⟨hinv, hpend⟩ := ih _ _ s' f' h inv2
            exact ⟨hinv, fun tid0 hp => hpend tid0
              (pendingEnd_nonend_transfer et _ evs rest tid0
                (fun v' => by simp) hp)⟩
          | resumed v =>
            simp only [elemRun] at h
            have inv2 := elemInv_nonend_step s s et (TransitionEvent.resumed v)
              evs rest (fun v' => by simp) rfl rfl rfl rfl rfl inv
            obtain ⟨hinv, hpend⟩ := ih _ _ s' f' h inv2
            exact ⟨hinv, fun tid0 hp => hpend tid0
              (pendingEnd_nonend_transfer et _ evs rest tid0
                (fun v' => by simp) hp)⟩
      | destroyT o =>
        rw [elemRun] at h
        have inv2 : ElemInv { s with detachedLog := s.detachedLog ++ [o]
                                     destroyedLog := s.destroyedLog ++ [o] }
            rest := by
          refine ⟨⟨inv.wf.idBound, inv.wf.idNodup, inv.wf.clockLive,
            inv.wf.objLive, inv.wf.propLive, inv.wf.syncObj, inv.wf.syncProp,
            inv.wf.unique, inv.wf.startedUnpaused, inv.wf.regOrEnded⟩, ?_, ?_⟩
          · intro etx evsx hm
            exact inv.tasksWF etx evsx (List.mem_cons_of_mem _ hm)
          · intro t ht hreg
            rcases inv.runningOrPending t ht hreg with hr | hp
            · exact Or.inl hr
            · obtain ⟨eta, evsa, hma, hia, v, hv⟩ := hp
              rcases List.mem_cons.mp hma with hh | hrr
              · exact ElemTask.noConfusion hh
              · exact Or.inr ⟨eta, evsa, hrr, hia, v, hv⟩
        obtain ⟨hinv, hpend⟩ := ih _ _ s' f' h inv2
        refine ⟨hinv, ?_⟩
        intro tid0 hp
        rcases hp with hc | he
        · rcases List.mem_cons.mp hc with hh | hr
          · exact ElemTask.noConfusion hh
          · exact hpend tid0 (Or.inl hr)
        · obtain ⟨eta, evsa, hma, hia, v, hv⟩ := he
          rcases List.mem_cons.mp hma with hh | hr
          · exact ElemTask.noConfusion hh
          · exact hpend tid0 (Or.inr ⟨eta, evsa, hr, hia, v, hv⟩)

/-- Helper: tasks that never concern a `value`-to-0 transition never touch the
detach/destroy logs. -/
theorem elemRun_safe_logs : ∀ (fuel : Nat) (s : ElemState)
    (tasks : List ElemTask) (s' : ElemState) (f' : Nat),
    elemRun fuel s tasks = some (s', f') →
    (s.transitions.map (fun t => t.id)).Nodup →
    SafeTasks s tasks →
    s'.detachedLog = s.detachedLog ∧ s'.destroyedLog = s.destroyedLog := by
  intro fuel
  induction fuel with
  | zero =>
    intro s tasks s' f' h hN hsafe
    cases tasks with
    | nil =>
      simp only [elemRun, Option.some.injEq, Prod.mk.injEq] at h
      rcases h with ⟨h1, _⟩
      subst h1
      exact ⟨rfl, rfl⟩
    | cons task rest => simp [elemRun] at h
  | succ fuel ih =>
    intro s tasks s' f' h hN hsafe
    cases tasks with
    | nil =>
      simp only [elemRun, Option.some.injEq, Prod.mk.injEq] at h
      rcases h with ⟨h1, _⟩
      subst h1
      exact ⟨rfl, rfl⟩
    | cons task rest =>
      cases task with
      | cancelT tid =>
        rw [elemRun] at h
        cases hf : s.findTrans tid with
        | none =>
          rw [hf] at h
          exact ih s rest s' f' h hN
            (fun task htask => hsafe _ (List.mem_cons_of_mem _ htask))
        | some et =>
          rw [hf] at h
          obtain ⟨hmem, hid⟩ := ElemState.findTrans_mem hf
          obtain ⟨_, _, _, d4, _⟩ := Transition.cancel_sig et.tr true
          have hN2 : (((s.setTr tid (et.tr.cancel true).1).transitions).map
              (fun t => t.id)).Nodup := by
            rw [ElemState.setTr_ids]
            exact hN
          refine ih (s.setTr tid (et.tr.cancel true).1)
            (ElemTask.eventsT { et with tr := (et.tr.cancel true).1 }
              (et.tr.cancel true).2 :: rest) s' f' h hN2 ?_
          intro task htask
          rcases List.mem_cons.mp htask with hh | hr
          · subst hh
            have h1 := hsafe _ (List.mem_cons_self _ _) et hmem hid
            intro hcontra
            exact h1 ⟨hcontra.1, d4 ▸ hcontra.2⟩
          · have h0 := hsafe _ (List.mem_cons_of_mem _ hr)
            cases task with
            | cancelT tid2 =>
              intro t ht hti
              obtain ⟨u, hu, hui, _, hup, htr⟩ := ElemState.setTr_mem ht
              have h1 := h0 u hu (hui.symm.trans hti)
              rcases htr with ⟨_, htr⟩ | ⟨hut, htr⟩
              · intro hcontra
                refine h1 ⟨hup.symm.trans hcontra.1, ?_⟩
                rw [← (congrArg Transition.endValue htr)]
                exact hcontra.2
              · have hue : u = et := nodup_id_inj hN hu hmem (hut.trans hid.symm)
                intro hcontra
                refine h1 ⟨hup.symm.trans hcontra.1, ?_⟩
                rw [hue, ← d4, ← (congrArg Transition.endValue htr)]
                exact hcontra.2
            | eventsT etx evsx => exact h0
            | destroyT ox => exact h0
      | eventsT et evs =>
        cases evs with
        | nil =>
          rw [elemRun] at h
          exact ih s rest s' f' h hN
            (fun task htask => hsafe _ (List.mem_cons_of_mem _ htask))
        | cons ev evs =>
          cases ev with
          | updated v =>
            rw [elemRun] at h
            refine ih (s.writeProp et.object et.propertyName (EValue.num v))
              (ElemTask.eventsT et evs :: rest) s' f' h hN ?_
            intro task htask
            rcases List.mem_cons.mp htask with hh | hr
            · subst hh
              exact hsafe _ (List.mem_cons_self _ _)
            · exact hsafe _ (List.mem_cons_of_mem _ hr)
          | ended v =>
            rw [elemRun] at h
            have hno : ¬(et.propertyName = "value" ∧ et.tr.endValue = 0) :=
              hsafe _ (List.mem_cons_self _ _)
            rw [if_neg hno] at h
            refine ih (s.removeRegs et) (ElemTask.eventsT et evs :: rest)
              s' f' h hN ?_
            intro task htask
            rcases List.mem_cons.mp htask with hh | hr
            · subst hh
              exact hno
            · exact hsafe _ (List.mem_cons_of_mem _ hr)
          | started v =>
            simp only [elemRun] at h
            refine ih _ _ s' f' h hN ?_
            intro task htask
            rcases List.mem_cons.mp htask with hh | hr
            · subst hh
              exact hsafe _ (List.mem_cons_self _ _)
            · exact hsafe _ (List.mem_cons_of_mem _ hr)
          | paused v =>
            simp only [elemRun] at h
            refine ih _ _ s' f' h hN ?_
            intro task htask
            rcases List.mem_cons.mp htask with hh | hr
            · subst hh
              exact hsafe _ (List.mem_cons_self _ _)
            · exact hsafe _ (List.mem_cons_of_mem _ hr)
          | resumed v =>
            simp only [elemRun] at h
            refine ih _ _ s' f' h hN ?_
            intro task htask
            rcases List.mem_cons.mp htask with hh | hr
            · subst hh
              exact hsafe _ (List.mem_cons_self _ _)
            · exact hsafe _ (List.mem_cons_of_mem _ hr)
      | destroyT o =>
        exact ((hsafe _ (List.mem_cons_self _ _)) : False).elim

/-- Helper: the state `transitionPropertyValue` builds — the started
replacement transition appended to the transition list, both multimaps and the
clock registry — satisfies the machine invariant with the started transition's
pending notifications as the only task, provided no transition for the same
(object, property) pair is currently registered. -/
theorem elemInv_tpv_setup (s S2 : ElemState) (o : Nat) (p : String)
    (t' : Transition) (evs : List TransitionEvent)
    (inv : ElemInv s [])
    (hnone : ∀ t ∈ s.transitions, t.id ∈ s.clockFrames →
      ¬(t.object = o ∧ t.propertyName = p))
    (ht's : t'.isStarted = true) (ht'p : t'.isPaused = false)
    (hiff : (∃ v, TransitionEvent.ended v ∈ evs) ↔ t'.isEnded = true)
    (hTr : S2.transitions = s.transitions ++
      [{ id := s.nextId, object := o, propertyName := p, tr := t' }])
    (hCk : S2.clockFrames = s.clockFrames ++ [s.nextId])
    (hOb : S2.objectTransitions = s.objectTransitions ++ [(o, s.nextId)])
    (hPr : S2.propertyTransitions = s.propertyTransitions ++ [(p, s.nextId)])
    (hNi : S2.nextId = s.nextId + 1) :
    ElemInv S2 [ElemTask.eventsT
      { id := s.nextId, object := o, propertyName := p, tr := t' } evs] := by
  have hmemchar : ∀ t ∈ S2.transitions, t ∈ s.transitions ∨
      t = { id := s.nextId, object := o, propertyName := p, tr := t' } := by
    intro t ht
    rw [hTr] at ht
    rcases List.mem_append.mp ht with h1 | h1
    · exact Or.inl h1
    · exact Or.inr (by simpa using h1)
  have hfwd : ∀ u ∈ s.transitions, u ∈ S2.transitions := by
    intro u hu
    rw [hTr]
    exact List.mem_append_left _ hu
  have hmem1 : ({ id := s.nextId, object := o, propertyName := p, tr := t' } :
      ETrans) ∈ S2.transitions := by
    rw [hTr]
    exact List.mem_append_right _ (List.mem_cons_self _ _)
  have hoblow : ∀ u ∈ s.transitions, u.id ≠ s.nextId :=
    fun u hu => Nat.ne_of_lt (inv.wf.idBound u hu)
  have hwf2 : ElemWF S2 := by
    constructor
    · intro t ht
      rw [hNi]
      rcases hmemchar t ht with h1 | h1
      · exact Nat.lt_succ_of_lt (inv.wf.idBound t h1)
      · rw [h1]
        exact Nat.lt_succ_self _
    · rw [hTr, List.map_append]
      simp only [List.map_cons, List.map_nil]
      rw [List.nodup_append]
      refine ⟨inv.wf.idNodup, List.nodup_singleton _, ?_⟩
      intro a ha hb
      have hb' : a = s.nextId := by simpa using hb
      rcases List.mem_map.mp ha with ⟨u, hu, hui⟩
      exact hoblow u hu (hui.trans hb')
    · intro i hi
      rw [hCk] at hi
      rcases List.mem_append.mp hi with h1 | h1
      · obtain ⟨t, ht, hti⟩ := inv.wf.clockLive i h1
        exact ⟨t, hfwd t ht, hti⟩
      · have h2 : i = s.nextId := by simpa using h1
        exact ⟨_, hmem1, by rw [h2]⟩
    · intro q hq
      rw [hOb] at hq
      rcases List.mem_append.mp hq with h1 | h1
      · obtain ⟨t, ht, h2, h3⟩ := inv.wf.objLive q h1
        exact ⟨t, hfwd t ht, h2, h3⟩
      · have h2 : q = (o, s.nextId) := by simpa using h1
        subst h2
        exact ⟨_, hmem1, rfl, rfl⟩
    · intro q hq
      rw [hPr] at hq
      rcases List.mem_append.mp hq with h1 | h1
      · obtain ⟨t, ht, h2, h3⟩ := inv.wf.propLive q h1
        exact ⟨t, hfwd t ht, h2, h3⟩
      · have h2 : q = (p, s.nextId) := by simpa using h1
        subst h2
        exact ⟨_, hmem1, rfl, rfl⟩
    · intro t ht
      rw [hCk, hOb]
      rcases hmemchar t ht with h1 | h1
      · have hne := hoblow t h1
        constructor
        · intro hc
          rcases List.mem_append.mp hc with hc1 | hc1
          · exact List.mem_append_left _ ((inv.wf.syncObj t h1).mp hc1)
          · exact absurd (by simpa using hc1) hne
        · intro hc
          rcases List.mem_append.mp hc with hc1 | hc1
          · exact List.mem_append_left _ ((inv.wf.syncObj t h1).mpr hc1)
          · have h3 : (t.object, t.id) = (o, s.nextId) := by simpa using hc1
            exact absurd (congrArg Prod.snd h3) hne
      · rw [h1]
        simp
    · intro t ht
      rw [hCk, hPr]
      rcases hmemchar t ht with h1 | h1
      · have hne := hoblow t h1
        constructor
        · intro hc
          rcases List.mem_append.mp hc with hc1 | hc1
          · exact List.mem_append_left _ ((inv.wf.syncProp t h1).mp hc1)
          · exact absurd (by simpa using hc1) hne
        · intro hc
          rcases List.mem_append.mp hc with hc1 | hc1
          · exact List.mem_append_left _ ((inv.wf.syncProp t h1).mpr hc1)
          · have h3 : (t.propertyName, t.id) = (p, s.nextId) := by simpa using hc1
            exact absurd (congrArg Prod.snd h3) hne
      · rw [h1]
        simp
    · intro t1 ht1 t2 ht2 hc1 hc2 ho hp2
      rw [hCk] at hc1 hc2
      rcases hmemchar t1 ht1 with h1 | h1 <;> rcases hmemchar t2 ht2 with h2 | h2
      · have hcc1 : t1.id ∈ s.clockFrames := by
          rcases List.mem_append.mp hc1 with hx | hx
          · exact hx
          · exact absurd (by simpa using hx) (hoblow t1 h1)
        have hcc2 : t2.id ∈ s.clockFrames := by
          rcases List.mem_append.mp hc2 with hx | hx
          · exact hx
          · exact absurd (by simpa using hx) (hoblow t2 h2)
        exact inv.wf.unique t1 h1 t2 h2 hcc1 hcc2 ho hp2
      · have hcc1 : t1.id ∈ s.clockFrames := by
          rcases List.mem_append.mp hc1 with hx | hx
          · exact hx
          · exact absurd (by simpa using hx) (hoblow t1 h1)
        rw [h2] at ho hp2
        exact absurd ⟨ho, hp2⟩ (hnone t1 h1 hcc1)
      · have hcc2 : t2.id ∈ s.clockFrames := by
          rcases List.mem_append.mp hc2 with hx | hx
          · exact hx
          · exact absurd (by simpa using hx) (hoblow t2 h2)
        rw [h1] at ho hp2
        exact absurd ⟨ho.symm, hp2.symm⟩ (hnone t2 h2 hcc2)
      · rw [h1, h2]
    · intro t ht
      rcases hmemchar t ht with h1 | h1
      · exact inv.wf.startedUnpaused t h1
      · rw [h1]
        exact ⟨ht's, ht'p⟩
    · intro t ht
      rw [hCk]
      rcases hmemchar t ht with h1 | h1
      · rcases inv.wf.regOrEnded t h1 with hr | he
        · exact Or.inl (List.mem_append_left _ hr)
        · exact Or.inr he
      · rw [h1]
        exact Or.inl (List.mem_append_right _ (by simp))
  refine ⟨hwf2, ?_, ?_⟩
  · intro etx evsx hm
    have hm' : ElemTask.eventsT etx evsx = ElemTask.eventsT
        { id := s.nextId, object := o, propertyName := p, tr := t' } evs := by
      simpa using hm
    injection hm' with h1 h2
    rw [h1, h2]
    refine ⟨⟨_, hmem1, rfl, rfl, rfl, rfl⟩, ?_⟩
    rintro ⟨v, hv⟩ t ht hti
    rcases hmemchar t ht with hx | hx
    · exact absurd hti (hoblow t hx)
    · rw [hx]
      exact hiff.mp ⟨v, hv⟩
  · intro t ht hreg
    rcases hmemchar t ht with h1 | h1
    · rw [hCk] at hreg
      have hcc : t.id ∈ s.clockFrames := by
        rcases List.mem_append.mp hreg with hx | hx
        · exact hx
        · exact absurd (by simpa using hx) (hoblow t h1)
      rcases inv.runningOrPending t h1 hcc with hr | hp
      · exact Or.inl hr
      · obtain ⟨_, _, hmm, _⟩ := hp
        exact absurd hmm (List.not_mem_nil _)
    · cases hE : t'.isEnded with
      | false =>
        left
        rw [h1]
        simp [Transition.isRunning, ht's, ht'p, hE]
      | true =>
        right
        obtain ⟨v, hv⟩ := hiff.mpr hE
        refine ⟨{ id := s.nextId, object := o, propertyName := p, tr := t' },
          evs, List.mem_cons_self _ _, ?_, v, hv⟩
        rw [h1]

/-- Helper: a successful `transitionPropertyValue` preserves the machine
invariant, never resurrects a deregistered identity, registers new transitions
only for the given (object, property) pair, creates — for a numeric target — a
transition carrying exactly the given delay and duration, and preserves the
signatures of all pre-existing transitions. -/
theorem transitionPropertyValue_inv (fuel : Nat) (s : ElemState) (o : Nat)
    (p : String) (v : EValue) (dly dur : ℚ) (eas : Easing) (s' : ElemState)
    (inv : ElemInv s [])
    (hnone : ∀ t ∈ s.transitions, t.id ∈ s.clockFrames →
      ¬(t.object = o ∧ t.propertyName = p))
    (h : transitionPropertyValue fuel s o p v dly dur eas = some s') :
    ElemInv s' [] ∧ s.nextId ≤ s'.nextId ∧
    (∀ i, i ∉ s.clockFrames → i < s.nextId → i ∉ s'.clockFrames) ∧
    (∀ t ∈ s'.transitions, t.id ∈ s'.clockFrames →
      (∃ u ∈ s.transitions, u.id = t.id ∧ u.object = t.object ∧
        u.propertyName = t.propertyName ∧ u.id ∈ s.clockFrames) ∨
      (t.object = o ∧ t.propertyName = p)) ∧
    (∀ target, v = EValue.num target →
      ∃ t ∈ s'.transitions, t.id = s.nextId ∧ t.object = o ∧
        t.propertyName = p ∧ t.tr.delay = dly ∧ t.tr.duration = dur ∧
        t.tr.endValue = target) ∧
    (∀ g ∈ s.transitions.map sigOf, g ∈ s'.transitions.map sigOf) := by
  cases v with
  | num target =>
    obtain ⟨t', evs, hstart, ht's, ht'p, hdly, hdur, hsv, hev, hiff⟩ :=
      Transition.start_fresh_spec (((Transition.create (s.propVal o p).toNumD
        target dur IdentityConverter).setDelay dly).setEasing eas) rfl rfl rfl
    simp only [transitionPropertyValue] at h
    rw [hstart] at h
    dsimp only at h
    have hnotin : s.nextId ∉ s.clockFrames := by
      intro hmemx
      obtain ⟨t, ht, hti⟩ := inv.wf.clockLive _ hmemx
      have hb := inv.wf.idBound t ht
      rw [hti] at hb
      exact lt_irrefl _ hb
    cases hrun : elemRun fuel
        (ElemState.setTr
          { s with nextId := s.nextId + 1
                   transitions := s.transitions ++
                     [{ id := s.nextId
                        object := o
                        propertyName := p
                        tr := ((Transition.create (s.propVal o p).toNumD target
                                 dur IdentityConverter).setDelay dly).setEasing
                                 eas }]
                   objectTransitions := s.objectTransitions ++ [(o, s.nextId)]
                   propertyTransitions :=
                     s.propertyTransitions ++ [(p, s.nextId)]
                   clockFrames := if s.nextId ∈ s.clockFrames then s.clockFrames
                                  else s.clockFrames ++ [s.nextId] }
          s.nextId t')
        [ElemTask.eventsT { id := s.nextId
                            object := o
                            propertyName := p
                            tr := t' } evs] with
    | none =>
      rw [hrun] at h
      simp at h
    | some pr =>
      obtain ⟨sfin, ffin⟩ := pr
      rw [hrun] at h
      have hs : sfin = s' := by simpa using h
      subst hs
      set S1 : ElemState :=
        { s with nextId := s.nextId + 1
                 transitions := s.transitions ++
                   [{ id := s.nextId
                      object := o
                      propertyName := p
                      tr := ((Transition.create (s.propVal o p).toNumD target
                               dur IdentityConverter).setDelay dly).setEasing
                               eas }]
                 objectTransitions := s.objectTransitions ++ [(o, s.nextId)]
                 propertyTransitions := s.propertyTransitions ++ [(p, s.nextId)]
                 clockFrames := if s.nextId ∈ s.clockFrames then s.clockFrames
                                else s.clockFrames ++ [s.nextId] } with hS1def
      have hTr : (S1.setTr s.nextId t').transitions = s.transitions ++
          [{ id := s.nextId, object := o, propertyName := p, tr := t' }] := by
        simp only [ElemState.setTr, hS1def, List.map_append]
        congr 1
        · conv_rhs => rw [← List.map_id s.transitions]
          refine List.map_congr_left ?_
          intro t ht
          simp [Nat.ne_of_lt (inv.wf.idBound t ht)]
        · simp
      have hCk : (S1.setTr s.nextId t').clockFrames =
          s.clockFrames ++ [s.nextId] := by
        simp only [ElemState.setTr, hS1def]
        rw [if_neg hnotin]
      have hOb : (S1.setTr s.nextId t').objectTransitions =
          s.objectTransitions ++ [(o, s.nextId)] := by
        simp only [ElemState.setTr, hS1def]
      have hPr : (S1.setTr s.nextId t').propertyTransitions =
          s.propertyTransitions ++ [(p, s.nextId)] := by
        simp only [ElemState.setTr, hS1def]
      have hNi : (S1.setTr s.nextId t').nextId = s.nextId + 1 := by
        simp only [ElemState.setTr, hS1def]
      have hsetup := elemInv_tpv_setup s (S1.setTr s.nextId t') o p t' evs inv
        hnone ht's ht'p hiff hTr hCk hOb hPr hNi
      obtain ⟨hinv, hpend⟩ := elemRun_inv fuel (S1.setTr s.nextId t')
        [ElemTask.eventsT
          { id := s.nextId, object := o, propertyName := p, tr := t' }
          evs] sfin ffin hrun hsetup
      obtain ⟨g1, g2, g3, _, _⟩ := elemRun_frame fuel (S1.setTr s.nextId t')
        [ElemTask.eventsT
          { id := s.nextId, object := o, propertyName := p, tr := t' }
          evs] sfin ffin hrun hsetup.wf.idNodup
      refine ⟨hinv, ?_, ?_, ?_, ?_, ?_⟩
      · rw [g1, hNi]
        exact Nat.le_succ _
      · intro i hi hlt hmem
        have h2 := g3 i hmem
        rw [hCk] at h2
        rcases List.mem_append.mp h2 with hx | hx
        · exact hi hx
        · exact absurd (by simpa using hx) (Nat.ne_of_lt hlt)
      · intro t ht hreg
        have hsig : sigOf t ∈
            ((S1.setTr s.nextId t').transitions).map sigOf := by
          rw [← g2]
          exact List.mem_map_of_mem sigOf ht
        rcases List.mem_map.mp hsig with ⟨w, hw, hwsig⟩
        obtain ⟨e1, e2, e3, _⟩ := sigOf_fields hwsig
        have hreg2 := g3 _ hreg
        rw [hCk] at hreg2
        rw [hTr] at hw
        rcases List.mem_append.mp hw with hwold | hwnew
        · left
          refine ⟨w, hwold, e1, e2, e3, ?_⟩
          rw [e1]
          rcases List.mem_append.mp hreg2 with hx | hx
          · exact hx
          · have hx2 : t.id = s.nextId := by simpa using hx
            have hb := inv.wf.idBound w hwold
            rw [e1, hx2] at hb
            exact absurd rfl (Nat.ne_of_lt hb)
        · have hw2 :
              w = { id := s.nextId, object := o, propertyName := p, tr := t' } := by
            simpa using hwnew
          right
          constructor
          · rw [← e2, hw2]
          · rw [← e3, hw2]
      · intro target0 htg
        injection htg with htg2
        subst htg2
        have hmem1 :
            ({ id := s.nextId, object := o, propertyName := p, tr := t' } :
              ETrans) ∈ (S1.setTr s.nextId t').transitions := by
          rw [hTr]
          exact List.mem_append_right _ (List.mem_cons_self _ _)
        have hsig :
            sigOf { id := s.nextId, object := o, propertyName := p, tr := t' }
              ∈ sfin.transitions.map sigOf := by
          rw [g2]
          exact List.mem_map_of_mem sigOf hmem1
        rcases List.mem_map.mp hsig with ⟨t, ht, htsig⟩
        simp only [sigOf, Prod.mk.injEq] at htsig
        refine ⟨t, ht, htsig.1, htsig.2.1, htsig.2.2.1, ?_, ?_, ?_⟩
        · rw [htsig.2.2.2.1]
          exact hdly
        · rw [htsig.2.2.2.2.1]
          exact hdur
        · rw [htsig.2.2.2.2.2.2.1]
          exact hev
      · intro g hg
        rw [g2, hTr, List.map_append]
        exact List.mem_append_left _ hg
  | boolV b =>
    have h2 : some (s.writeProp o p (EValue.boolV b)) = some s' := h
    injection h2 with h3
    subst h3
    refine ⟨⟨⟨inv.wf.idBound, inv.wf.idNodup, inv.wf.clockLive, inv.wf.objLive,
      inv.wf.propLive, inv.wf.syncObj, inv.wf.syncProp, inv.wf.unique,
      inv.wf.startedUnpaused, inv.wf.regOrEnded⟩,
      fun etx evsx hm => absurd hm (List.not_mem_nil _),
      fun t ht hr => inv.runningOrPending t ht hr⟩,
      Nat.le.refl, fun i hi _ => hi,
      fun t ht hr => Or.inl ⟨t, ht, rfl, rfl, rfl, hr⟩,
      fun target htg => EValue.noConfusion htg,
      fun g hg => hg⟩
  | strV st =>
    have h2 : some (s.writeProp o p (EValue.strV st)) = some s' := h
    injection h2 with h3
    subst h3
    refine ⟨⟨⟨inv.wf.idBound, inv.wf.idNodup, inv.wf.clockLive, inv.wf.objLive,
      inv.wf.propLive, inv.wf.syncObj, inv.wf.syncProp, inv.wf.unique,
      inv.wf.startedUnpaused, inv.wf.regOrEnded⟩,
      fun etx evsx hm => absurd hm (List.not_mem_nil _),
      fun t ht hr => inv.runningOrPending t ht hr⟩,
      Nat.le.refl, fun i hi _ => hi,
      fun t ht hr => Or.inl ⟨t, ht, rfl, rfl, rfl, hr⟩,
      fun target htg => EValue.noConfusion htg,
      fun g hg => hg⟩
  | undef =>
    have h2 : some (s.writeProp o p EValue.undef) = some s' := h
    injection h2 with h3
    subst h3
    refine ⟨⟨⟨inv.wf.idBound, inv.wf.idNodup, inv.wf.clockLive, inv.wf.objLive,
      inv.wf.propLive, inv.wf.syncObj, inv.wf.syncProp, inv.wf.unique,
      inv.wf.startedUnpaused, inv.wf.regOrEnded⟩,
      fun etx evsx hm => absurd hm (List.not_mem_nil _),
      fun t ht hr => inv.runningOrPending t ht hr⟩,
      Nat.le.refl, fun i hi _ => hi,
      fun t ht hr => Or.inl ⟨t, ht, rfl, rfl, rfl, hr⟩,
      fun target htg => EValue.noConfusion htg,
      fun g hg => hg⟩

/-- Helper: running a list of cancel tasks under the invariant deregisters
every listed identity from the clock and changes no signature, fresh counter or
registration beyond removals. -/
theorem elemRun_cancelOnly_spec (fuel : Nat) (s s' : ElemState) (f' : Nat)
    (tasks : List ElemTask)
    (hco : ∀ task ∈ tasks, ∃ tid, task = ElemTask.cancelT tid)
    (h : elemRun fuel s tasks = some (s', f'))
    (inv : ElemInv s []) :
    ElemInv s' [] ∧
    (∀ tid, ElemTask.cancelT tid ∈ tasks → tid ∉ s'.clockFrames) ∧
    s'.nextId = s.nextId ∧ (∀ i ∈ s'.clockFrames, i ∈ s.clockFrames) ∧
    s'.transitions.map sigOf = s.transitions.map sigOf := by
  have inv' : ElemInv s tasks := by
    refine ⟨inv.wf, ?_, ?_⟩
    · intro etx evsx hm
      obtain ⟨tid, ha⟩ := hco _ hm
      exact ElemTask.noConfusion ha
    · intro t ht hreg
      rcases inv.runningOrPending t ht hreg with hr | hp
      · exact Or.inl hr
      · obtain ⟨_, _, hmm, _⟩ := hp
        exact absurd hmm (List.not_mem_nil _)
  obtain ⟨hinv, hpend⟩ := elemRun_inv fuel s tasks s' f' h inv'
  obtain ⟨g1, g2, g3, _, _⟩ := elemRun_frame fuel s tasks s' f' h inv.wf.idNodup
  exact ⟨hinv, fun tid htid => hpend tid (Or.inl htid), g1, g3, g2⟩

/-- Helper: one iteration of the property loop of `BaseElement.transition`
preserves the machine invariant; when a value changed it deregisters every
previously registered transition under the property name; and it creates the
outgoing object's replacement with delay 0 and duration `dOld`, and the
incoming object's replacement with delay `nDelay` and duration `nDur`. -/
theorem propertyStep_spec (fuel : Nat) (s s₃ : ElemState) (p : String)
    (oOld oNew : Option Nat) (r : PropertyStepValues) (eas : Easing)
    (dOld nDelay nDur : ℚ)
    (inv : ElemInv s [])
    (hdist : ∀ a b, oOld = some a → oNew = some b → a ≠ b)
    (h : propertyStep fuel s p oOld oNew r eas dOld nDelay nDur = some s₃) :
    ElemInv s₃ [] ∧
    ((r.oldObjectOld ≠ r.oldObjectNew ∨ r.newObjectOld ≠ r.newObjectNew) →
      ∀ tid, (p, tid) ∈ s.propertyTransitions → tid ∉ s₃.clockFrames) ∧
    (∀ o target, oOld = some o → r.oldObjectOld ≠ r.oldObjectNew →
      r.oldObjectNew = EValue.num target →
      ∃ t ∈ s₃.transitions, t.object = o ∧ t.propertyName = p ∧
        t.tr.delay = 0 ∧ t.tr.duration = dOld ∧ t.tr.endValue = target) ∧
    (∀ o target, oNew = some o → r.newObjectOld ≠ r.newObjectNew →
      r.newObjectNew = EValue.num target →
      ∃ t ∈ s₃.transitions, t.object = o ∧ t.propertyName = p ∧
        t.tr.delay = nDelay ∧ t.tr.duration = nDur ∧ t.tr.endValue = target) := by
  simp only [propertyStep] at h
  rcases Option.bind_eq_some.mp h with ⟨s1, h1, h2⟩
  rcases Option.bind_eq_some.mp h2 with ⟨s2, h21, h22⟩
  have hchanged_lt : ∀ tid, (p, tid) ∈ s.propertyTransitions →
      tid < s.nextId := by
    intro tid htid
    obtain ⟨t, ht, hti, _⟩ := inv.wf.propLive _ htid
    have hb := inv.wf.idBound t ht
    rw [hti] at hb
    exact hb
  have hstep1 : ElemInv s1 [] ∧ s1.nextId = s.nextId ∧
      (∀ i ∈ s1.clockFrames, i ∈ s.clockFrames) ∧
      s1.transitions.map sigOf = s.transitions.map sigOf ∧
      ((r.oldObjectOld ≠ r.oldObjectNew ∨ r.newObjectOld ≠ r.newObjectNew) →
        ∀ tid, (p, tid) ∈ s.propertyTransitions → tid ∉ s1.clockFrames) := by
    by_cases hch : r.oldObjectOld ≠ r.oldObjectNew ∨
        r.newObjectOld ≠ r.newObjectNew
    · have hbool : (decide (r.oldObjectOld ≠ r.oldObjectNew) ||
          decide (r.newObjectOld ≠ r.newObjectNew)) = true := by
        rcases hch with h' | h'
        · simp [h']
        · simp [h']
      rw [if_pos hbool] at h1
      cases hrun : elemRun fuel s ((s.propertyTransitions.filter
          (fun q => q.1 == p)).map (fun q => ElemTask.cancelT q.2)) with
      | none =>
        rw [hrun] at h1
        simp at h1
      | some pr =>
        obtain ⟨sc, fc⟩ := pr
        rw [hrun] at h1
        have hs1 : s1 = sc := by
          have := h1
          simp at this
          exact this.symm
        subst hs1
        obtain ⟨hinv1, hdereg, hni, hsub, hsig⟩ :=
          elemRun_cancelOnly_spec fuel s s1 fc _
            (by
              intro task htask
              rcases List.mem_map.mp htask with ⟨q, _, hq⟩
              exact ⟨q.2, hq.symm⟩)
            hrun inv
        refine ⟨hinv1, hni, hsub, hsig, ?_⟩
        intro _ tid htid
        refine hdereg tid ?_
        exact List.mem_map_of_mem _ (List.mem_filter.mpr ⟨htid, by simp⟩)
    · have hbool : (decide (r.oldObjectOld ≠ r.oldObjectNew) ||
          decide (r.newObjectOld ≠ r.newObjectNew)) = false := by
        push_neg at hch
        simp [decide_eq_false (not_not.mpr hch.1),
          decide_eq_false (not_not.mpr hch.2)]
      rw [hbool] at h1
      simp at h1
      subst h1
      exact ⟨inv, rfl, fun i hi => hi, rfl, fun hch' _ _ => absurd hch' hch⟩
  obtain ⟨hinv1, hni1, hsub1, hsig1, hdereg1⟩ := hstep1
  have hnone1 :
      (r.oldObjectOld ≠ r.oldObjectNew ∨ r.newObjectOld ≠ r.newObjectNew) →
      ∀ t ∈ s1.transitions, t.id ∈ s1.clockFrames → t.propertyName ≠ p := by
    intro hch t ht hreg hcontra
    have hsigm : sigOf t ∈ s.transitions.map sigOf := by
      rw [← hsig1]
      exact List.mem_map_of_mem sigOf ht
    rcases List.mem_map.mp hsigm with ⟨u, hu, husig⟩
    obtain ⟨e1, _, e3, _⟩ := sigOf_fields husig
    have hucl : u.id ∈ s.clockFrames := by
      rw [e1]
      exact hsub1 _ hreg
    have hup : (u.propertyName, u.id) ∈ s.propertyTransitions :=
      (inv.wf.syncProp u hu).mp hucl
    rw [e3, hcontra] at hup
    have hdone := hdereg1 hch u.id hup
    rw [e1] at hdone
    exact hdone hreg
  have hstep2 : ElemInv s2 [] ∧ s1.nextId ≤ s2.nextId ∧
      (∀ i, i ∉ s1.clockFrames → i < s1.nextId → i ∉ s2.clockFrames) ∧
      (∀ t ∈ s2.transitions, t.id ∈ s2.clockFrames →
        (∃ u ∈ s1.transitions, u.id = t.id ∧ u.object = t.object ∧
          u.propertyName = t.propertyName ∧ u.id ∈ s1.clockFrames) ∨
        (∃ a, oOld = some a ∧ t.object = a ∧ t.propertyName = p)) ∧
      (∀ o target, oOld = some o → r.oldObjectOld ≠ r.oldObjectNew →
        r.oldObjectNew = EValue.num target →
        ∃ t ∈ s2.transitions, t.object = o ∧ t.propertyName = p ∧
          t.tr.delay = 0 ∧ t.tr.duration = dOld ∧ t.tr.endValue = target) ∧
      (∀ g ∈ s1.transitions.map sigOf, g ∈ s2.transitions.map sigOf) := by
    cases hbO : decide (r.oldObjectOld ≠ r.oldObjectNew) with
    | false =>
      have hEq : r.oldObjectOld = r.oldObjectNew :=
        not_not.mp (of_decide_eq_false hbO)
      rw [hbO] at h21
      simp at h21
      subst h21
      exact ⟨hinv1, Nat.le.refl, fun i hi _ => hi,
        fun t ht hr => Or.inl ⟨t, ht, rfl, rfl, rfl, hr⟩,
        fun o target _ hne _ => absurd hEq hne,
        fun g hg => hg⟩
    | true =>
      have hNe : r.oldObjectOld ≠ r.oldObjectNew := of_decide_eq_true hbO
      rw [hbO] at h21
      rw [if_pos rfl] at h21
      cases oOld with
      | none =>
        have hss : some s1 = some s2 := h21
        injection hss with hss2
        subst hss2
        refine ⟨hinv1, Nat.le.refl, fun i hi _ => hi,
          fun t ht hr => Or.inl ⟨t, ht, rfl, rfl, rfl, hr⟩,
          ?_, fun g hg => hg⟩
        intro o target hsome _ _
        exact Option.noConfusion hsome
      | some a =>
        obtain ⟨g1, g2, g3, g4, g5, g6⟩ :=
          transitionPropertyValue_inv fuel s1 a p r.oldObjectNew 0 dOld eas s2
            hinv1
            (fun t ht hreg hcontra =>
              hnone1 (Or.inl hNe) t ht hreg hcontra.2)
            h21
        refine ⟨g1, g2, g3, ?_, ?_, g6⟩
        · intro t ht hr
          rcases g4 t ht hr with hl | hrr
          · exact Or.inl hl
          · exact Or.inr ⟨a, rfl, hrr.1, hrr.2⟩
        · intro o target hsome _ htgt
          injection hsome with hsome2
          subst hsome2
          obtain ⟨t, ht, _, h3, h4, h5, h6, h7⟩ := g5 target htgt
          exact ⟨t, ht, h3, h4, h5, h6, h7⟩
  obtain ⟨hinv2, hni2, hclk2, hchar2, hnew2, hsigf2⟩ := hstep2
  have hnone2 :
      (r.oldObjectOld ≠ r.oldObjectNew ∨ r.newObjectOld ≠ r.newObjectNew) →
      ∀ b, oNew = some b →
      ∀ t ∈ s2.transitions, t.id ∈ s2.clockFrames →
      ¬(t.object = b ∧ t.propertyName = p) := by
    intro hch b hsome t ht hreg hcontra
    rcases hchar2 t ht hreg with ⟨u, hu, _, _, e3, hucl⟩ | ⟨a, hoo, hobj, _⟩
    · exact hnone1 hch u hu hucl (e3.trans hcontra.2)
    · have hob : t.object = b := hcontra.1
      rw [hobj] at hob
      exact hdist a b hoo hsome hob
  have hdereg12 :
      (r.oldObjectOld ≠ r.oldObjectNew ∨ r.newObjectOld ≠ r.newObjectNew) →
      ∀ tid, (p, tid) ∈ s.propertyTransitions → tid ∉ s2.clockFrames := by
    intro hch tid htid
    refine hclk2 tid (hdereg1 hch tid htid) ?_
    rw [hni1]
    exact hchanged_lt tid htid
  cases hbN : decide (r.newObjectOld ≠ r.newObjectNew) with
  | false =>
    have hEqN : r.newObjectOld = r.newObjectNew :=
      not_not.mp (of_decide_eq_false hbN)
    rw [hbN] at h22
    simp at h22
    subst h22
    refine ⟨hinv2, ?_, hnew2, ?_⟩
    · intro hch tid htid
      exact hdereg12 hch tid htid
    · intro o target _ hne _
      exact absurd hEqN hne
  | true =>
    have hNeN : r.newObjectOld ≠ r.newObjectNew := of_decide_eq_true hbN
    rw [hbN] at h22
    rw [if_pos rfl] at h22
    cases oNew with
    | none =>
      have hss : some s2 = some s₃ := h22
      injection hss with hss2
      subst hss2
      refine ⟨hinv2, ?_, hnew2, ?_⟩
      · intro hch tid htid
        exact hdereg12 hch tid htid
      · intro o target hsome _ _
        exact Option.noConfusion hsome
    | some b =>
      obtain ⟨k1, k2, k3, k4, k5, k6⟩ :=
        transitionPropertyValue_inv fuel s2 b p r.newObjectNew nDelay nDur
          eas s₃ hinv2
          (fun t ht hreg hcontra =>
            hnone2 (Or.inr hNeN) b rfl t ht hreg hcontra)
          h22
      refine ⟨k1, ?_, ?_, ?_⟩
      · intro hch tid htid
        refine k3 tid (hdereg12 hch tid htid) ?_
        have hlt := hchanged_lt tid htid
        rw [← hni1] at hlt
        exact lt_of_lt_of_le hlt hni2
      · intro o target hsome hne htgt
        obtain ⟨t, ht, h3, h4, h5, h6, h7⟩ := hnew2 o target hsome hne htgt
        have hsigm : sigOf t ∈ s₃.transitions.map sigOf :=
          k6 _ (List.mem_map_of_mem sigOf ht)
        rcases List.mem_map.mp hsigm with ⟨w, hw, hwsig⟩
        simp only [sigOf, Prod.mk.injEq] at hwsig
        refine ⟨w, hw, ?_, ?_, ?_, ?_, ?_⟩
        · rw [hwsig.2.1]
          exact h3
        · rw [hwsig.2.2.1]
          exact h4
        · rw [hwsig.2.2.2.1]
          exact h5
        · rw [hwsig.2.2.2.2.1]
          exact h6
        · rw [hwsig.2.2.2.2.2.2.1]
          exact h7
      · intro o target hsome _ htgt
        injection hsome with hsome2
        subst hsome2
        obtain ⟨t, ht, _, h3, h4, h5, h6, h7⟩ := k5 target htgt
        exact ⟨t, ht, h3, h4, h5, h6, h7⟩

/-- C2: one iteration of the property loop of `BaseElement.transition` keeps
the invariant that for every (object, resolved property) pair at most one
transition is registered with the clock, and whenever the property's
before/after value differs on either object every transition previously
registered under that property name has been deregistered from the clock
(its frame callback removed) by the synchronous cancel phase. -/
theorem c2_single_registration_per_pair (fuel : Nat) (s s₃ : ElemState)
    (p : String) (oOld oNew : Option Nat) (r : PropertyStepValues)
    (eas : Easing) (dOld nDelay nDur : ℚ)
    (inv : ElemInv s [])
    (hdist : ∀ a b, oOld = some a → oNew = some b → a ≠ b)
    (h : propertyStep fuel s p oOld oNew r eas dOld nDelay nDur = some s₃) :
    (∀ t1 ∈ s₃.transitions, ∀ t2 ∈ s₃.transitions,
      t1.id ∈ s₃.clockFrames → t2.id ∈ s₃.clockFrames →
      t1.object = t2.object → t1.propertyName = t2.propertyName →
      t1.id = t2.id) ∧
    ((r.oldObjectOld ≠ r.oldObjectNew ∨ r.newObjectOld ≠ r.newObjectNew) →
      ∀ tid, (p, tid) ∈ s.propertyTransitions → tid ∉ s₃.clockFrames) := by
  obtain ⟨hinv, hdereg, _, _⟩ := propertyStep_spec fuel s s₃ p oOld oNew r eas
    dOld nDelay nDur inv hdist h
  exact ⟨hinv.wf.unique, hdereg⟩

/-- C7: in `BaseElement.transition` with both an outgoing and an incoming
object and a property whose value changes on both, the outgoing object's
replacement transition is created with delay 0 and the incoming object's with
delay 0 when the element kind cross-fades and with the outgoing object's
transition duration otherwise. -/
theorem c7_cross_fade_delays (fuel : Nat) (s s' : ElemState)
    (crossFade : Bool) (oOld oNew : Nat) (props : BaseElementProperties)
    (cOld cNew : ℚ) (pn : String)
    (fOldO gOldO fNewO gNewO : String → EValue) (easeFn : Easing)
    (dOld aOld aNew : ℚ)
    (inv : ElemInv s []) (hdist : oOld ≠ oNew)
    (hOldDur : resolveElementTransitionDuration props cOld = .ok dOld)
    (hchO : fOldO pn ≠ gOldO pn) (hchN : fNewO pn ≠ gNewO pn)
    (htgO : gOldO pn = EValue.num aOld) (htgN : gNewO pn = EValue.num aNew)
    (h : elementTransitionCommit fuel s crossFade (some oOld) (some oNew) props
      cOld cNew [pn] fOldO gOldO fNewO gNewO easeFn = .ok (some s')) :
    (∃ t ∈ s'.transitions, t.object = oOld ∧ t.propertyName = pn ∧
      t.tr.delay = 0 ∧ t.tr.duration = dOld ∧ t.tr.endValue = aOld) ∧
    (∃ t ∈ s'.transitions, t.object = oNew ∧ t.propertyName = pn ∧
      t.tr.delay = (if crossFade then 0 else dOld) ∧
      t.tr.endValue = aNew) := by
  simp only [elementTransitionCommit, List.foldlM] at h
  rw [hOldDur] at h
  cases hND : resolveElementTransitionDuration props cNew with
  | error e =>
    rw [hND] at h
    simp only [bind, Except.bind] at h
    exact Except.noConfusion h
  | ok dNew =>
    rw [hND] at h
    cases hEN : resolveElementPropertyTransitionEasing props pn with
    | error e =>
      rw [hEN] at h
      simp only [bind, Except.bind] at h
      exact Except.noConfusion h
    | ok en =>
      rw [hEN] at h
      simp only [bind, Except.bind] at h
      cases hGE : getElementTransitionEasing easeFn en with
      | error e =>
        rw [hGE] at h
        simp only [Except.bind] at h
        exact Except.noConfusion h
      | ok easing =>
        rw [hGE] at h
        simp only [Except.bind, pure, Except.pure, Except.ok.injEq] at h
        obtain ⟨_, _, hps, hpnew⟩ := propertyStep_spec fuel s s' pn
          (some oOld) (some oNew)
          { oldObjectOld := fOldO pn
            oldObjectNew := gOldO pn
            newObjectOld := fNewO pn
            newObjectNew := gNewO pn }
          easing dOld (if crossFade then 0 else dOld) dNew inv
          (by
            intro a b h1 h2
            injection h1 with h1'
            injection h2 with h2'
            rw [← h1', ← h2']
            exact hdist)
          h
        constructor
        · obtain ⟨t, ht, h3, h4, h5, h6, h7⟩ :=
            hps oOld aOld rfl hchO htgO
          exact ⟨t, ht, h3, h4, h5, h6, h7⟩
        · obtain ⟨t, ht, h3, h4, h5, _, h7⟩ :=
            hpnew oNew aNew rfl hchN htgN
          exact ⟨t, ht, h3, h4, h5, h7⟩

/-- Helper: the trailing detach/destroy pair followed by the exhausted events
task appends the object to both logs exactly once. -/
theorem elemRun_destroy_events_logs (fuel : Nat) (s : ElemState) (o : Nat)
    (et : ETrans) (s' : ElemState) (f' : Nat)
    (h : elemRun fuel s [ElemTask.destroyT o, ElemTask.eventsT et []] =
      some (s', f')) :
    s'.detachedLog = s.detachedLog ++ [o] ∧
    s'.destroyedLog = s.destroyedLog ++ [o] := by
  cases fuel with
  | zero => simp [elemRun] at h
  | succ fuel =>
    rw [elemRun] at h
    cases fuel with
    | zero => simp [elemRun] at h
    | succ fuel2 =>
      rw [elemRun] at h
      simp only [elemRun, Option.some.injEq, Prod.mk.injEq] at h
      rcases h with ⟨h1, _⟩
      rw [← h1]
      exact ⟨rfl, rfl⟩

/-- C3: delivering the end notification of a transition on the resolved
property `value` with end value exactly 0 cancels and deregisters every other
transition registered to the owning object and then detaches and destroys the
object exactly once (one new entry in each log); an end notification for any
other property name or any non-zero end value leaves both logs untouched. -/
theorem c3_value_zero_destroys_once (fuel : Nat) (s : ElemState) (et : ETrans)
    (v : ℚ) (s' : ElemState) (f' : Nat)
    (inv : ElemInv s [ElemTask.eventsT et [TransitionEvent.ended v]])
    (hreg : et.id ∈ s.clockFrames)
    (h : elemRun fuel s [ElemTask.eventsT et [TransitionEvent.ended v]] =
      some (s', f')) :
    (et.propertyName = "value" ∧ et.tr.endValue = 0 →
      s'.detachedLog = s.detachedLog ++ [et.object] ∧
      s'.destroyedLog = s.destroyedLog ++ [et.object] ∧
      (∀ tid, (et.object, tid) ∈ s.objectTransitions →
        tid ∉ s'.clockFrames)) ∧
    (¬(et.propertyName = "value" ∧ et.tr.endValue = 0) →
      s'.detachedLog = s.detachedLog ∧ s'.destroyedLog = s.destroyedLog) := by
  cases fuel with
  | zero => simp [elemRun] at h
  | succ fuel =>
    rw [elemRun] at h
    constructor
    · intro hcz
      rw [if_pos hcz] at h
      have inv1 := elemInv_ended_cascade_step s et v [] [] inv
      obtain ⟨hinv', hpend⟩ := elemRun_inv fuel (s.removeRegs et)
        ((((s.removeRegs et).objectTransitions.filter
            (fun q => q.1 == et.object)).map
          (fun q => ElemTask.cancelT q.2)) ++
          ElemTask.destroyT et.object :: ElemTask.eventsT et [] :: [])
        s' f' h inv1
      obtain ⟨_, _, hcksub, _, _⟩ := elemRun_frame fuel (s.removeRegs et)
        ((((s.removeRegs et).objectTransitions.filter
            (fun q => q.1 == et.object)).map
          (fun q => ElemTask.cancelT q.2)) ++
          ElemTask.destroyT et.object :: ElemTask.eventsT et [] :: [])
        s' f' h inv1.wf.idNodup
      obtain ⟨⟨w, hwmem, hw1, hw2, hw3, _⟩, _⟩ := inv.tasksWF et
        [TransitionEvent.ended v] (List.mem_cons_self _ _)
      rw [elemRun_append] at h
      rcases Option.bind_eq_some.mp h with ⟨⟨sa, fa⟩, hca, hrest⟩
      have hsafe : SafeTasks (s.removeRegs et)
          (((s.removeRegs et).objectTransitions.filter
            (fun q => q.1 == et.object)).map
            (fun q => ElemTask.cancelT q.2)) := by
        intro task htask
        rcases List.mem_map.mp htask with ⟨q, hq, hqe⟩
        rw [← hqe]
        intro t ht hti hcontra
        obtain ⟨hqmem, hqkey⟩ := List.mem_filter.mp hq
        have hqkey' : q.1 = et.object := by simpa using hqkey
        obtain ⟨u, hu, hu1, hu2⟩ := inv1.wf.objLive q hqmem
        have hut : u = t := nodup_id_inj inv.wf.idNodup hu ht (hu1.trans hti.symm)
        have hto : t.object = et.object := by
          rw [← hut, hu2, hqkey']
        have htreg1 : t.id ∈ (s.removeRegs et).clockFrames := by
          refine (inv1.wf.syncObj t ht).mpr ?_
          have hqeta : q = (t.object, t.id) := by
            rw [← hut, hu2, hu1]
          rw [← hqeta]
          exact hqmem
        have htreg : t.id ∈ s.clockFrames := List.mem_of_mem_filter htreg1
        have htid_ne : t.id ≠ et.id := by
          have := (List.mem_filter.mp htreg1).2
          simpa using this
        have hwp : w.propertyName = "value" := hw3.trans hcz.1
        have htp : t.propertyName = "value" := hcontra.1
        have hweq : t.id = w.id := by
          refine inv.wf.unique t ht w hwmem htreg ?_ ?_ (htp.trans hwp.symm)
          · rw [hw1]
            exact hreg
          · rw [hw2]
            exact hto
        rw [hw1] at hweq
        exact htid_ne hweq
      obtain ⟨l1, l2⟩ := elemRun_safe_logs fuel (s.removeRegs et) _ sa fa hca
        inv.wf.idNodup hsafe
      obtain ⟨l3, l4⟩ :=
        elemRun_destroy_events_logs fa sa et.object et s' f' hrest
      refine ⟨?_, ?_, ?_⟩
      · rw [l3, l1]
        rfl
      · rw [l4, l2]
        rfl
      · intro tid htid
        by_cases hte : tid = et.id
        · subst hte
          intro hmem
          have h2 := hcksub _ hmem
          have := (List.mem_filter.mp h2).2
          simp at this
        · have hpair : (et.object, tid) ∈
              ((s.removeRegs et).objectTransitions.filter
                (fun q => q.1 == et.object)) := by
            refine List.mem_filter.mpr ⟨?_, by simp⟩
            exact List.mem_filter.mpr ⟨htid, by simp [hte]⟩
          exact hpend tid (Or.inl (List.mem_append_left _
            (List.mem_map_of_mem (fun q => ElemTask.cancelT q.2) hpair)))
    · intro hcz
      rw [if_neg hcz] at h
      have hsafe2 : SafeTasks (s.removeRegs et) [ElemTask.eventsT et []] := by
        intro task htask
        have hte : task = ElemTask.eventsT et [] := by simpa using htask
        rw [hte]
        exact hcz
      obtain ⟨l1, l2⟩ := elemRun_safe_logs fuel (s.removeRegs et)
        [ElemTask.eventsT et []] s' f' h inv.wf.idNodup hsafe2
      exact ⟨l1, l2⟩

/-- Helper: the empty element state satisfies the machine invariant with no
pending tasks. -/
theorem emptyElemState_inv : ElemInv emptyElemState [] := by
  refine ⟨⟨?_, ?_, ?_, ?_, ?_, ?_, ?_, ?_, ?_, ?_⟩, ?_, ?_⟩
  · intro t ht
    exact absurd ht (List.not_mem_nil _)
  · exact List.nodup_nil
  · intro i hi
    exact absurd hi (List.not_mem_nil _)
  · intro q hq
    exact absurd hq (List.not_mem_nil _)
  · intro q hq
    exact absurd hq (List.not_mem_nil _)
  · intro t ht
    exact absurd ht (List.not_mem_nil _)
  · intro t ht
    exact absurd ht (List.not_mem_nil _)
  · intro t1 ht1
    exact absurd ht1 (List.not_mem_nil _)
  · intro t ht
    exact absurd ht (List.not_mem_nil _)
  · intro t ht
    exact absurd ht (List.not_mem_nil _)
  · intro etx evsx hm
    exact absurd hm (List.not_mem_nil _)
  · intro t ht
    exact absurd ht (List.not_mem_nil _)

/-- Witness for C2: the concrete property step on the empty state keeps at most
one registered transition per (object, property) pair and deregisters every
prior transition under the property name. -/
theorem c2_single_registration_per_pair_witness :
    (∀ t1 ∈ c2DemoResult.transitions, ∀ t2 ∈ c2DemoResult.transitions,
      t1.id ∈ c2DemoResult.clockFrames → t2.id ∈ c2DemoResult.clockFrames →
      t1.object = t2.object → t1.propertyName = t2.propertyName →
      t1.id = t2.id) ∧
    ((c2DemoValues.oldObjectOld ≠ c2DemoValues.oldObjectNew ∨
      c2DemoValues.newObjectOld ≠ c2DemoValues.newObjectNew) →
      ∀ tid, ("alpha", tid) ∈ emptyElemState.propertyTransitions →
        tid ∉ c2DemoResult.clockFrames) :=
  c2_single_registration_per_pair 8 emptyElemState c2DemoResult "alpha"
    (some 0) (some 1) c2DemoValues LinearEasing 0 0 0 emptyElemState_inv
    (by
      intro a b h1 h2
      injection h1 with h1p
      injection h2 with h2p
      rw [← h1p, ← h2p]
      decide)
    rfl

/-- Witness for C7: the concrete commit with a declared zero duration creates
the outgoing replacement with delay 0 and the incoming one with the computed
cross-fade delay. -/
theorem c7_cross_fade_delays_witness :
    (∃ t ∈ c7DemoResult.transitions, t.object = 0 ∧
      t.propertyName = "alpha" ∧ t.tr.delay = 0 ∧ t.tr.duration = 0 ∧
      t.tr.endValue = 2) ∧
    (∃ t ∈ c7DemoResult.transitions, t.object = 1 ∧
      t.propertyName = "alpha" ∧ t.tr.delay = 0 ∧ t.tr.endValue = 3) :=
  c7_cross_fade_delays 8 emptyElemState c7DemoResult false 0 1 c7DemoProps
    1 1 "alpha" (fun _ => EValue.num 1) (fun _ => EValue.num 2)
    (fun _ => EValue.num 0) (fun _ => EValue.num 3) LinearEasing 0 2 3
    emptyElemState_inv (by decide) rfl (by decide) (by decide) rfl rfl rfl

/-- Helper: the concrete C3 state satisfies the invariant with the pending end
notification as the only task. -/
theorem c3Demo_inv :
    ElemInv c3DemoState
      [ElemTask.eventsT c3DemoET [TransitionEvent.ended 0]] := by
  have hmem : ∀ t : ETrans, t ∈ c3DemoState.transitions → t = c3DemoET := by
    intro t ht
    have ht2 : t ∈ [c3DemoET] := ht
    simpa using ht2
  refine ⟨⟨?_, ?_, ?_, ?_, ?_, ?_, ?_, ?_, ?_, ?_⟩, ?_, ?_⟩
  · intro t ht
    rw [hmem t ht]
    decide
  · exact List.nodup_singleton _
  · intro i hi
    have hi2 : i ∈ [0] := hi
    have hi3 : i = 0 := by simpa using hi2
    exact ⟨c3DemoET, List.mem_singleton_self _, by rw [hi3]; rfl⟩
  · intro q hq
    have hq2 : q ∈ [((5 : Nat), (0 : Nat))] := hq
    have hq3 : q = (5, 0) := by simpa using hq2
    subst hq3
    exact ⟨c3DemoET, List.mem_singleton_self _, rfl, rfl⟩
  · intro q hq
    have hq2 : q ∈ [("value", (0 : Nat))] := hq
    have hq3 : q = ("value", 0) := by simpa using hq2
    subst hq3
    exact ⟨c3DemoET, List.mem_singleton_self _, rfl, rfl⟩
  · intro t ht
    rw [hmem t ht]
    decide
  · intro t ht
    rw [hmem t ht]
    decide
  · intro t1 ht1 t2 ht2 hc1 hc2 ho hp
    rw [hmem t1 ht1, hmem t2 ht2]
  · intro t ht
    rw [hmem t ht]
    exact ⟨rfl, rfl⟩
  · intro t ht
    rw [hmem t ht]
    left
    decide
  · intro etx evsx hm
    have hm2 : ElemTask.eventsT etx evsx = ElemTask.eventsT c3DemoET
        [TransitionEvent.ended 0] := by
      simpa using hm
    injection hm2 with h1 h2
    rw [h1, h2]
    refine ⟨⟨c3DemoET, List.mem_singleton_self _, rfl, rfl, rfl, rfl⟩, ?_⟩
    rintro _ t ht _
    rw [hmem t ht]
    rfl
  · intro t ht hreg
    right
    refine ⟨c3DemoET, [TransitionEvent.ended 0], List.mem_singleton_self _,
      ?_, 0, List.mem_singleton_self _⟩
    rw [hmem t ht]

/-- Witness for C3: delivering the concrete pending end notification of the
`value`-to-0 transition detaches and destroys object 5 exactly once and
deregisters its transitions. -/
theorem c3_value_zero_destroys_once_witness :
    (c3DemoET.propertyName = "value" ∧ c3DemoET.tr.endValue = 0 →
      c3DemoRun.1.detachedLog =
        c3DemoState.detachedLog ++ [c3DemoET.object] ∧
      c3DemoRun.1.destroyedLog =
        c3DemoState.destroyedLog ++ [c3DemoET.object] ∧
      (∀ tid, (c3DemoET.object, tid) ∈ c3DemoState.objectTransitions →
        tid ∉ c3DemoRun.1.clockFrames)) ∧
    (¬(c3DemoET.propertyName = "value" ∧ c3DemoET.tr.endValue = 0) →
      c3DemoRun.1.detachedLog = c3DemoState.detachedLog ∧
      c3DemoRun.1.destroyedLog = c3DemoState.destroyedLog) :=
  c3_value_zero_destroys_once 8 c3DemoState c3DemoET 0 c3DemoRun.1
    c3DemoRun.2 c3Demo_inv (by decide) rfl

/-- C4 as written is false: `pause()` on a transition that has already ended is
not a no-op — it throws.  `demoEndedTransition` is an explicit ended
transition on which both `pause()` and `resume()` throw instead of returning
the unchanged state. -/
theorem c4_pause_counterexample :
    demoEndedTransition.isEnded = true ∧
    Transition.pause demoEndedTransition =
      .error "Cannot pause a transition that has already ended" ∧
    Transition.resume demoEndedTransition =
      .error "Cannot resume a transition that has already ended" ∧
    ¬ Transition.pause demoEndedTransition = .ok (demoEndedTransition, []) := by
  refine ⟨rfl, rfl, rfl, fun h => ?_⟩
  exact Except.noConfusion h

/-- C4 (amended): `pause()` and `resume()` are idempotent and no-ops in their
redundant cases (`pause` when already paused, `resume` when not paused), and
neither call recomputes the current value; however, on a transition that has
already ended both calls throw an error instead of being no-ops. -/
theorem c4_pause_resume_behavior (t : Transition) :
    (t.isEnded = true →
      Transition.pause t =
        .error "Cannot pause a transition that has already ended" ∧
      Transition.resume t =
        .error "Cannot resume a transition that has already ended") ∧
    (t.isEnded = false → t.isPaused = true → Transition.pause t = .ok (t, [])) ∧
    (t.isEnded = false → t.isPaused = false → Transition.resume t = .ok (t, [])) ∧
    (t.isEnded = false → t.isPaused = false →
      Transition.pause t =
        .ok ({ t with isPaused := true },
             [TransitionEvent.paused t.currentValue])) ∧
    (t.isEnded = false → t.isPaused = true →
      Transition.resume t =
        .ok ({ t with isPaused := false },
             [TransitionEvent.resumed t.currentValue])) ∧
    (∀ p, Transition.pause t = .ok p →
      p.1.currentValue = t.currentValue ∧
        ∀ v, TransitionEvent.updated v ∉ p.2) ∧
    (∀ p, Transition.resume t = .ok p →
      p.1.currentValue = t.currentValue ∧
        ∀ v, TransitionEvent.updated v ∉ p.2) := by
  refine ⟨fun hE => ⟨?_, ?_⟩, fun hE hP => ?_, fun hE hP => ?_, fun hE hP => ?_,
    fun hE hP => ?_, fun p h => ?_, fun p h => ?_⟩
  · simp [Transition.pause, hE]
  · simp [Transition.resume, hE]
  · simp [Transition.pause, hE, hP]
  · simp [Transition.resume, hE, hP]
  · simp [Transition.pause, hE, hP]
  · simp [Transition.resume, hE, hP]
  · unfold Transition.pause at h
    split at h
    · exact absurd h (by simp)
    · split at h
      · cases h; exact ⟨rfl, by simp⟩
      · cases h; exact ⟨rfl, by simp⟩
  · unfold Transition.resume at h
    split at h
    · exact absurd h (by simp)
    · split at h
      · cases h; exact ⟨rfl, by simp⟩
      · cases h; exact ⟨rfl, by simp⟩

/-- Witness for the amended C4, applying `c4_pause_resume_behavior` at concrete
transitions. -/
theorem c4_pause_resume_behavior_witness :
    Transition.pause demoRunningTransition =
      .ok ({ demoRunningTransition with isPaused := true },
           [TransitionEvent.paused demoRunningTransition.currentValue]) ∧
    Transition.pause demoPausedTransition = .ok (demoPausedTransition, []) ∧
    Transition.pause demoEndedTransition =
      .error "Cannot pause a transition that has already ended" :=
  ⟨(c4_pause_resume_behavior demoRunningTransition).2.2.2.1 rfl rfl,
   (c4_pause_resume_behavior demoPausedTransition).2.1 rfl rfl,
   ((c4_pause_resume_behavior demoEndedTransition).1 rfl).1⟩

/-- C5: `cancel(snapToEnd=true)` is a no-op unless the transition is currently
running; on a running transition it marks the transition ended, snaps the
current value to the end value and fires exactly one update notification
followed by exactly one end notification; on an already-ended transition it
changes nothing. -/
theorem c5_cancel_spec (t : Transition) :
    (t.isRunning = true →
      Transition.cancel t true =
        ({ t with isEnded := true, currentValue := t.endValue },
         [TransitionEvent.updated t.endValue, TransitionEvent.ended t.endValue])) ∧
    (t.isRunning = false → Transition.cancel t true = (t, [])) ∧
    (t.isEnded = true → Transition.cancel t true = (t, [])) := by
  unfold Transition.cancel
  refine ⟨fun h => by simp [h], fun h => by simp [h], fun h => ?_⟩
  have : t.isRunning = false := by simp [Transition.isRunning, h]
  simp [this]

/-- Witness for C5 at a concrete running and a concrete ended transition. -/
theorem c5_cancel_spec_witness :
    Transition.cancel demoRunningTransition true =
      ({ demoRunningTransition with
          isEnded := true
          currentValue := demoRunningTransition.endValue },
       [TransitionEvent.updated demoRunningTransition.endValue,
        TransitionEvent.ended demoRunningTransition.endValue]) ∧
    Transition.cancel demoEndedTransition true = (demoEndedTransition, []) :=
  ⟨(c5_cancel_spec demoRunningTransition).1 rfl,
   (c5_cancel_spec demoEndedTransition).2.2 rfl⟩

/-- C6: the fraction of a transition equals
`clamp((runningTime - delay) / duration, 0, 1)` whenever the duration is
non-zero and equals 1 whenever the duration is 0; consequently a zero-duration
transition reports fraction 1 immediately upon `start()` and ends synchronously
within `start()`, firing its update notification before its end
notification. -/
theorem c6_fraction_and_zero_duration (t : Transition) :
    (t.duration ≠ 0 →
      t.fraction = min (max 0 ((t.runningTime - t.delay) / t.duration)) 1) ∧
    (t.duration = 0 → t.fraction = 1) ∧
    (t.duration = 0 → t.isStarted = false → t.isEnded = false →
      ∃ t' v,
        Transition.start t =
          .ok (t', [TransitionEvent.started t.currentValue,
                    TransitionEvent.updated v, TransitionEvent.ended v]) ∧
        t'.isEnded = true ∧ t'.fraction = 1) := by
  refine ⟨fun h => by simp [Transition.fraction, h],
          fun h => by simp [Transition.fraction, h], fun h0 hS hE => ?_⟩
  have h1 : ({ t with isStarted := true } : Transition).fraction = 1 := by
    simp [Transition.fraction, h0]
  have h2 := Transition.updateCurrentValue_of_fraction_one _ h1
  refine ⟨{ t with
      isStarted := true
      currentValue := Transition.interpolatedValue { t with isStarted := true }
      isEnded := true },
    Transition.interpolatedValue { t with isStarted := true }, ?_, rfl, ?_⟩
  · simp only [hE] at h2
    unfold Transition.start
    simp only [hE, hS, Bool.false_eq_true, if_false, h2]
  · simp [Transition.fraction, h0]

/-- Witness for C6 at a concrete zero-duration transition. -/
theorem c6_fraction_and_zero_duration_witness :
    ∃ t' v,
      Transition.start (Transition.create 0 1 0 IdentityConverter) =
        .ok (t', [TransitionEvent.started 0, TransitionEvent.updated v,
                  TransitionEvent.ended v]) ∧
      t'.isEnded = true ∧ t'.fraction = 1 :=
  (c6_fraction_and_zero_duration
    (Transition.create 0 1 0 IdentityConverter)).2.2 rfl rfl rfl

/-- C8: calling `Layout.transition` with the currently active layout name
yields an empty exit set and starts no enter or exit fades; hence switching
twice in a row to the same name is idempotent — the second call yields the
empty run on an unchanged state, and with an empty exit set the `set_layout`
branch of `View.update` destroys no element. -/
theorem c8_layout_same_name_idempotent (s : LayoutState)
    (hn : s.layoutName ∈ s.layoutNames) :
    (layoutTransition s s.layoutName =
      .ok { exitElementTypes := [], state := s
            exitFades := [], enterFades := [] }) ∧
    (∀ layoutName run, layoutName ∈ s.layoutNames →
      layoutTransition s layoutName = .ok run →
      layoutTransition run.state layoutName =
        .ok { exitElementTypes := [], state := run.state
              exitFades := [], enterFades := [] }) ∧
    (∀ tns, viewSetLayoutDestroyedElements [] tns = []) := by
  refine ⟨?_, ?_, fun tns => rfl⟩
  · simp [layoutTransition, hn]
  · intro layoutName run hl h
    have hrun : run.state = { s with layoutName := layoutName } := by
      unfold layoutTransition at h
      rw [if_neg (by simpa using hl)] at h
      by_cases he : s.layoutName = layoutName
      · rw [if_pos he] at h
        cases h; rfl
      · rw [if_neg he] at h
        cases h; rfl
    rw [hrun]
    simp [layoutTransition, hl]

/-- Witness for C8: after switching the concrete layout to `a`, switching to
`a` again yields the empty run. -/
theorem c8_layout_same_name_idempotent_witness :
    layoutTransition c8DemoRun.state "a" =
      .ok { exitElementTypes := [], state := c8DemoRun.state
            exitFades := [], enterFades := [] } :=
  (c8_layout_same_name_idempotent c8DemoState (by decide)).2.1 "a" c8DemoRun
    (by decide) (by rfl)

/-- C9: `getPropertyMatcher(elementName)` includes a pattern's property matcher
exactly when the pattern's element matcher matches the element name itself or
the element name with a single trailing `1` (one not preceded by another digit)
removed, and the returned matcher matches a property name exactly when some
such included pattern's property matcher does.  `replaceTrailingOne` strips
exactly a single trailing non-digit-preceded `1`. -/
theorem c9_property_matcher_inclusion (m : ElementPropertyMatcher)
    (elementName : String) (pair : Matcher × Matcher)
    (hm : pair ∈ m.matchers) :
    (pair ∈ includedPropertyMatchers m elementName ↔
      (pair.1 elementName = true ∨
        pair.1 (replaceTrailingOne elementName) = true)) ∧
    (∀ propertyName,
      ElementPropertyMatcher.getPropertyMatcher m elementName propertyName = true ↔
      ∃ q, q ∈ m.matchers ∧
        (q.1 elementName = true ∨ q.1 (replaceTrailingOne elementName) = true) ∧
        q.2 propertyName = true) ∧
    replaceTrailingOne "figure1" = "figure" ∧
    replaceTrailingOne "figure11" = "figure11" ∧
    replaceTrailingOne "figure" = "figure" ∧
    replaceTrailingOne "1" = "" := by
  refine ⟨?_, ?_, rfl, rfl, rfl, rfl⟩
  · simp [includedPropertyMatchers, List.mem_filter, hm]
  · intro propertyName
    simp only [ElementPropertyMatcher.getPropertyMatcher,
      includedPropertyMatchers, List.any_eq_true, List.mem_map,
      List.mem_filter, Bool.or_eq_true]
    constructor
    · rintro ⟨f, ⟨q, ⟨hq, hcond⟩, hf⟩, hp⟩
      exact ⟨q, hq, hcond, hf ▸ hp⟩
    · rintro ⟨q, hq, hcond, hp⟩
      exact ⟨q.2, ⟨q, ⟨hq, hcond⟩, rfl⟩, hp⟩

/-- Witness for C9 at a concrete matcher and the element name `figure1`. -/
theorem c9_property_matcher_inclusion_witness :
    (c9DemoPair ∈ includedPropertyMatchers c9DemoEPM "figure1" ↔
      (c9DemoPair.1 "figure1" = true ∨
        c9DemoPair.1 (replaceTrailingOne "figure1") = true)) ∧
    (∀ propertyName,
      ElementPropertyMatcher.getPropertyMatcher c9DemoEPM "figure1" propertyName
          = true ↔
      ∃ q, q ∈ c9DemoEPM.matchers ∧
        (q.1 "figure1" = true ∨ q.1 (replaceTrailingOne "figure1") = true) ∧
        q.2 propertyName = true) ∧
    replaceTrailingOne "figure1" = "figure" ∧
    replaceTrailingOne "figure11" = "figure11" ∧
    replaceTrailingOne "figure" = "figure" ∧
    replaceTrailingOne "1" = "" :=
  c9_property_matcher_inclusion c9DemoEPM "figure1" c9DemoPair
    (by simp [c9DemoEPM])

/-- C10: after `Engine.updateView` resolves — for any view update behaviour and
any state it leaves — every remaining element has a present `value` that does
not resolve to the `none` sentinel, and `keepSkippingWait` has been reset to
false. -/
theorem c10_update_view_cleanup (s : EngineState)
    (viewUpdate : EngineState → Bool × EngineState) :
    (∀ p, p ∈ (engineUpdateView s viewUpdate).2.elements →
      ∃ v, p.2.value = some v ∧ NoneValue.resolve v = Option.none) ∧
    (engineUpdateView s viewUpdate).2.keepSkippingWait = false := by
  constructor
  · intro p hp
    unfold engineUpdateView engineUpdateViewCleanup at hp
    simp only [List.mem_filter] at hp
    rcases hp with ⟨_, hcond⟩
    rcases hv : p.2.value with _ | v
    · rw [hv] at hcond
      simp at hcond
    · refine ⟨v, rfl, ?_⟩
      rw [hv] at hcond
      cases v <;> simp_all [PropertyValue.hasNoneType, NoneValue.resolve]
  · rfl

/-- Witness for C10 at a concrete engine state holding a live element, a `none`
element and a value-less element. -/
theorem c10_update_view_cleanup_witness :
    (∀ p, p ∈ (engineUpdateView c10DemoState (fun s => (true, s))).2.elements →
      ∃ v, p.2.value = some v ∧ NoneValue.resolve v = Option.none) ∧
    (engineUpdateView c10DemoState
      (fun s => (true, s))).2.keepSkippingWait = false :=
  c10_update_view_cleanup c10DemoState (fun s => (true, s))

end Vnmark

